import Mathlib

/-!
Verification of the Pyra compiler core (EVM-targeting smart-contract
compiler). This file shallowly embeds the data model and the operations of
the compiler pipeline — the IR (`ir.rs`), the security-hardening pass
(`security.rs`), the storage-layout analyzer (`storage.rs`), the type
checker (`typer.rs`), the assembler (`codegen.rs`) and the
indentation-aware lexer (`lexer.rs`) — and proves or refutes the claims of
the specification against the embedding.

Machine integers are embedded as `Nat` with explicit reductions mod `2^w`
where overflow matters. Rust `Vec`s become `List`s, `HashMap`s become
association lists (only `insert`-fresh/`get`/`contains` are used by the
sources, for which an association list is an exact model). Source `Span`s
are carried verbatim (the parser always produces `start = end = 0`).
-/

namespace Pyra

/-! ## IR data model (`ir.rs`)

`IrOp` is the closed instruction union of `ir.rs`. `Push` carries the raw
big-endian byte payload (each byte a `Nat < 256`); `Dup`/`Swap`/`Log`
carry their `u8` argument; jumps carry label ids (`usize`). -/

inductive IrOp where
  | push (data : List Nat)
  | pop
  | dup (n : Nat)
  | swap (n : Nat)
  | add
  | sub
  | mul
  | div
  | sdiv
  | mod
  | exp
  | lt
  | gt
  | eq
  | isZero
  | and
  | or
  | not
  | shr
  | mload
  | mstore
  | sload
  | sstore
  | jump (label : Nat)
  | jumpI (label : Nat)
  | jumpDest (label : Nat)
  | caller
  | callValue
  | callDataLoad
  | callDataSize
  | keccak256
  | ret
  | revert
  | log (n : Nat)
  | stop
  | invalid
  deriving DecidableEq, Repr

structure IrFunction where
  name : String
  selector : List Nat
  ops : List IrOp
  label : Nat
  deriving DecidableEq, Repr

structure IrModule where
  functions : List IrFunction
  constructor_ops : List IrOp
  label_count : Nat
  deriving DecidableEq, Repr

/-! ## Security pass (`security.rs`) -/

/-- `slot_to_bytes` of `security.rs`: minimal big-endian byte encoding of a
`u64` slot, with `0` encoded as the single byte `0`. The Rust source takes
the 8-byte big-endian form and drops leading zero bytes. -/
def toBytesBEAux : Nat → Nat → List Nat
  | 0, _ => []
  | fuel + 1, n => if n = 0 then [] else toBytesBEAux fuel (n / 256) ++ [n % 256]

def toBytesBE (n : Nat) : List Nat :=
  toBytesBEAux n n

def slot_to_bytes (slot : Nat) : List Nat :=
  if slot = 0 then [0] else toBytesBE slot

/-- The inline sequence `emit_checked_add` pushes, given the fresh
`ok_label`. The Rust function appends to `out` and bumps `label_count` by
one; here the sequence is returned as a list. -/
def emit_checked_add (ok_label : Nat) : List IrOp :=
  [ .dup 2, .dup 2, .add,
    .dup 1, .dup 3, .lt, .isZero, .jumpI ok_label,
    .push [0], .push [0], .revert,
    .jumpDest ok_label,
    .swap 2, .pop, .swap 1, .pop ]

/-- The inline sequence `emit_checked_sub` pushes, given the fresh
`ok_label`. -/
def emit_checked_sub (ok_label : Nat) : List IrOp :=
  [ .dup 2, .dup 2, .lt, .isZero, .jumpI ok_label,
    .push [0], .push [0], .revert,
    .jumpDest ok_label,
    .sub ]

/-- The inline sequence `emit_checked_mul` pushes, given the two fresh
labels `ok_label = label_count` and `zero_label = label_count + 1`. -/
def emit_checked_mul (ok_label zero_label : Nat) : List IrOp :=
  [ .dup 2, .isZero, .jumpI zero_label,
    .dup 2, .dup 2, .mul,
    .dup 1, .dup 3, .div, .dup 4, .eq, .jumpI ok_label,
    .push [0], .push [0], .revert,
    .jumpDest zero_label,
    .pop, .pop, .push [0], .jump ok_label,
    .jumpDest ok_label,
    .swap 2, .pop, .swap 1, .pop ]

/-- `harden_ops` of `security.rs`: replaces `Add`/`Sub`/`Mul` by the
checked inline sequences, threading the mutable `label_count`. -/
def harden_ops : List IrOp → Nat → List IrOp × Nat
  | [], label_count => ([], label_count)
  | op :: rest, label_count =>
    match op with
    | .add =>
      let (tail, lc) := harden_ops rest (label_count + 1)
      (emit_checked_add label_count ++ tail, lc)
    | .sub =>
      let (tail, lc) := harden_ops rest (label_count + 1)
      (emit_checked_sub label_count ++ tail, lc)
    | .mul =>
      let (tail, lc) := harden_ops rest (label_count + 2)
      (emit_checked_mul label_count (label_count + 1) ++ tail, lc)
    | other =>
      let (tail, lc) := harden_ops rest label_count
      (other :: tail, lc)

/-- `harden` of `security.rs`: hardens every function's ops in order, then
the constructor ops, threading `label_count` through the module. -/
def hardenFunctions : List IrFunction → Nat → List IrFunction × Nat
  | [], lc => ([], lc)
  | f :: rest, lc =>
    let (ops, lc1) := harden_ops f.ops lc
    let (tail, lc2) := hardenFunctions rest lc1
    ({ f with ops := ops } :: tail, lc2)

def harden (m : IrModule) : IrModule :=
  let (funcs, lc1) := hardenFunctions m.functions m.label_count
  let (ctor, lc2) := harden_ops m.constructor_ops lc1
  { functions := funcs, constructor_ops := ctor, label_count := lc2 }

/-- Body rewriting of `add_reentrancy_guard`: before every `Return` or
`Stop`, insert `Push(0) Push(slot_bytes) SStore`. -/
def guardBody (slot_bytes : List Nat) : List IrOp → List IrOp
  | [] => []
  | op :: rest =>
    match op with
    | .ret => .push [0] :: .push slot_bytes :: .sstore :: .ret :: guardBody slot_bytes rest
    | .stop => .push [0] :: .push slot_bytes :: .sstore :: .stop :: guardBody slot_bytes rest
    | other => other :: guardBody slot_bytes rest

/-- The entry sequence `add_reentrancy_guard` prepends to every function
body. -/
def guardEntry (slot_bytes : List Nat) (ok_label : Nat) : List IrOp :=
  [ .push slot_bytes, .sload, .isZero, .jumpI ok_label,
    .push [0], .push [0], .revert,
    .jumpDest ok_label,
    .push [1], .push slot_bytes, .sstore ]

def guardFunctions (slot_bytes : List Nat) : List IrFunction → Nat → List IrFunction × Nat
  | [], lc => ([], lc)
  | f :: rest, lc =>
    let guarded := guardEntry slot_bytes lc ++ guardBody slot_bytes f.ops
    let (tail, lc1) := guardFunctions slot_bytes rest (lc + 1)
    ({ f with ops := guarded } :: tail, lc1)

/-- `add_reentrancy_guard` of `security.rs`: wraps every function (not the
constructor), allocating one fresh label per function through the shared
`label_count`. -/
def add_reentrancy_guard (m : IrModule) (lock_slot : Nat) : IrModule :=
  let slot_bytes := slot_to_bytes lock_slot
  let (funcs, lc) := guardFunctions slot_bytes m.functions m.label_count
  { functions := funcs, constructor_ops := m.constructor_ops, label_count := lc }

/-! ## Stack semantics of IR sequences

A small-step interpreter for a list of `IrOp`s, faithful to the EVM
semantics of the corresponding opcodes (values reduced mod `2^256`;
`LT`/`SUB`/`DIV` read the top as their left operand; `DIV` by zero gives
`0`; `DUP n` copies the `n`-th item from the top; `SWAP n` exchanges the
top with the `(n+1)`-th item). Jump targets resolve to the position of the
matching `JumpDest` in the list. This is used to settle functional claims
about the inline sequences the security pass emits. -/

def W256 : Nat := 2 ^ 256

/-- Value of a big-endian byte payload (what PUSH places on the stack). -/
def bytesToNat (data : List Nat) : Nat :=
  data.foldl (fun acc b => acc * 256 + b) 0

inductive RunResult where
  | ok (stack : List Nat)
  | reverted
  | stackError
  | unsupported
  | noFuel
  deriving DecidableEq, Repr

/-- Position of the `JumpDest` for `label` in the op list. -/
def findLabel (ops : List IrOp) (label : Nat) : Option Nat :=
  ops.findIdx? (fun op => op = IrOp.jumpDest label)

/-- Execute `ops` from program counter `pc` on `stack` (head = top of
stack), with `fuel` bounding the number of steps. Falling off the end of
the list yields the final stack. -/
def runOps (ops : List IrOp) : Nat → Nat → List Nat → RunResult
  | 0, _, _ => .noFuel
  | fuel + 1, pc, stack =>
    match ops.get? pc with
    | none => .ok stack
    | some op =>
      match op, stack with
      | .push data, st => runOps ops fuel (pc + 1) (bytesToNat data % W256 :: st)
      | .pop, _ :: st => runOps ops fuel (pc + 1) st
      | .dup n, st =>
        match st.get? (n - 1) with
        | some v => runOps ops fuel (pc + 1) (v :: st)
        | none => .stackError
      | .swap n, top :: st =>
        match st.get? (n - 1) with
        | some v =>
          runOps ops fuel (pc + 1) (v :: st.set (n - 1) top)
        | none => .stackError
      | .add, x :: y :: st => runOps ops fuel (pc + 1) ((x + y) % W256 :: st)
      | .mul, x :: y :: st => runOps ops fuel (pc + 1) ((x * y) % W256 :: st)
      | .sub, x :: y :: st => runOps ops fuel (pc + 1) ((x + W256 - y % W256) % W256 :: st)
      | .div, x :: y :: st =>
        runOps ops fuel (pc + 1) ((if y % W256 = 0 then 0 else x / (y % W256)) :: st)
      | .lt, x :: y :: st => runOps ops fuel (pc + 1) ((if x < y then 1 else 0) :: st)
      | .gt, x :: y :: st => runOps ops fuel (pc + 1) ((if y < x then 1 else 0) :: st)
      | .eq, x :: y :: st => runOps ops fuel (pc + 1) ((if x = y then 1 else 0) :: st)
      | .isZero, x :: st => runOps ops fuel (pc + 1) ((if x = 0 then 1 else 0) :: st)
      | .jump l, st =>
        match findLabel ops l with
        | some target => runOps ops fuel target st
        | none => .unsupported
      | .jumpI l, c :: st =>
        if c = 0 then runOps ops fuel (pc + 1) st
        else
          match findLabel ops l with
          | some target => runOps ops fuel target st
          | none => .unsupported
      | .jumpDest _, st => runOps ops fuel (pc + 1) st
      | .revert, _ => .reverted
      | .stop, st => .ok st
      | .pop, [] => .stackError
      | .swap _, [] => .stackError
      | .add, _ => .stackError
      | .mul, _ => .stackError
      | .sub, _ => .stackError
      | .div, _ => .stackError
      | .lt, _ => .stackError
      | .gt, _ => .stackError
      | .eq, _ => .stackError
      | .isZero, [] => .stackError
      | .jumpI _, [] => .stackError
      | _, _ => .unsupported


/-! ## AST (`ast.rs`)

`Span` is carried verbatim (the parser always produces `start = end = 0`);
its `end` field is renamed `endPos` (`end` is reserved in Lean). The Rust
`Type` enum is embedded as `Ty`. `BigUint` literals become `Nat`.

The snapshot's `ast.rs` lacks the `Emit` statement variant and the
`EmitStatement` struct, although `ir.rs`, `typer.rs` and `storage.rs`
match on `Statement::Emit` / use `crate::EmitStatement`; those two
declarations are modelled from the spec: `Emit {event, args}` (§3,
"Statement: … `Emit {event, args}`"). -/

structure Span where
  start : Nat
  endPos : Nat

inductive Ty where
  | uint8
  | uint256
  | int256
  | bool
  | address
  | bytes
  | string
  | vec (inner : Ty)
  | map (key value : Ty)
  | custom (name : String)
  | generic (name : String) (args : List Ty)

inductive BinaryOp where
  | add | sub | mul | div | mod | pow
  | equal | notEqual | less | greater | lessEqual | greaterEqual
  | and | or

inductive UnaryOp where
  | not
  | minus

inductive Expression where
  | number (n : Nat)
  | hexNumber (n : Nat)
  | stringLit (s : String)
  | boolLit (b : Bool)
  | bytesLit (b : List Nat)
  | structInit (name : String) (fields : List (String × Expression))
  | identifier (name : String)
  | binary (op : BinaryOp) (left right : Expression)
  | unary (op : UnaryOp) (operand : Expression)
  | call (callee : Expression) (args : List Expression)
  | member (base : Expression) (field : String)
  | index (base : Expression) (key : Expression)

structure LetStatement where
  name : String
  type_ : Option Ty
  value : Option Expression
  mutable : Bool
  span : Span

structure AssignStatement where
  target : Expression
  value : Expression
  span : Span

structure ForHeader where
  var : String
  iterable : Expression
  span : Span

/-- Modelled from the spec: the snapshot's `ast.rs` is missing the
`EmitStatement` struct used by `ir.rs` (`crate::EmitStatement`); the spec
describes the statement as `Emit {event, args}`. -/
structure EmitStatement where
  event : String
  args : List Expression
  span : Span

mutual

inductive Statement where
  | letS (l : LetStatement)
  | assign (a : AssignStatement)
  | expr (e : Expression)
  | ifS (i : IfStatement)
  | forS (h : ForHeader) (body : Block)
  | whileS (condition : Expression) (body : Block) (span : Span)
  | ret (e : Option Expression)
  | require (e : Expression)
  | emit (em : EmitStatement)

inductive IfStatement where
  | mk (condition : Expression) (thenBranch : Block) (elseBranch : Option Block) (span : Span)

inductive Block where
  | mk (statements : List Statement) (span : Span)

end

def Block.statements : Block → List Statement
  | .mk s _ => s

def IfStatement.condition : IfStatement → Expression
  | .mk c _ _ _ => c

def IfStatement.thenBranch : IfStatement → Block
  | .mk _ t _ _ => t

def IfStatement.elseBranch : IfStatement → Option Block
  | .mk _ _ e _ => e

structure Parameter where
  name : String
  type_ : Ty
  span : Span

structure Function where
  name : String
  params : List Parameter
  return_type : Option Ty
  body : Block
  span : Span

structure StructField where
  name : String
  type_ : Ty
  span : Span

structure StructDef where
  name : String
  fields : List StructField
  span : Span

structure ConstDecl where
  name : String
  type_ : Ty
  value : Expression
  span : Span

inductive Item where
  | function (f : Function)
  | structItem (s : StructDef)
  | constItem (c : ConstDecl)

structure Program where
  items : List Item
  span : Span

/-! ## Storage layout analyzer (`storage.rs`)

The Rust `HashMap<String, StorageSlot>` is embedded as an association
list in insertion order; the source only uses `contains_key`, fresh
`insert` and `get`, for which this is an exact model (iteration in
`check_program` is over a set of distinct keys, and nothing proved here
depends on that iteration order). -/

inductive StorageKind where
  | value
  | mapping
  deriving DecidableEq, Repr

structure StorageSlot where
  slot : Nat
  kind : StorageKind
  deriving DecidableEq, Repr

structure StorageLayout where
  slots : List (String × StorageSlot)
  next_slot : Nat
  deriving DecidableEq, Repr

def StorageLayout.containsKey (l : StorageLayout) (name : String) : Bool :=
  l.slots.any (fun p => p.1 = name)

/-- `StorageLayout::alloc`: insert only if the name is fresh, bumping
`next_slot`. -/
def StorageLayout.alloc (l : StorageLayout) (name : String) (kind : StorageKind) : StorageLayout :=
  if l.containsKey name then l
  else { slots := l.slots ++ [(name, { slot := l.next_slot, kind := kind })],
         next_slot := l.next_slot + 1 }

def StorageLayout.get (l : StorageLayout) (name : String) : Option StorageSlot :=
  (l.slots.find? (fun p => p.1 = name)).map Prod.snd

def StorageLayout.slot_count (l : StorageLayout) : Nat :=
  l.next_slot

def is_builtin (name : String) : Bool :=
  name = "msg" || name = "block" || name = "tx" || name = "self"

/-- `discover_target` of `storage.rs`. -/
def discover_target (expr : Expression) (locals : List String) (layout : StorageLayout) :
    StorageLayout :=
  match expr with
  | .identifier name =>
    if !locals.contains name && !is_builtin name then layout.alloc name .value else layout
  | .index base _ =>
    match base with
    | .identifier name =>
      if !locals.contains name && !is_builtin name then layout.alloc name .mapping else layout
    | _ => layout
  | .member base _ => discover_target base locals layout
  | _ => layout

mutual

/-- `discover_expr_mappings` of `storage.rs`. Note the source recurses
into the key of an index expression but not into its base, and does not
recurse into struct-literal fields. -/
def discover_expr_mappings (expr : Expression) (locals : List String)
    (layout : StorageLayout) : StorageLayout :=
  match expr with
  | .index base idx =>
    let layout1 :=
      match base with
      | .identifier name =>
        if !locals.contains name && !is_builtin name then layout.alloc name .mapping else layout
      | _ => layout
    discover_expr_mappings idx locals layout1
  | .binary _ l r =>
    discover_expr_mappings r locals (discover_expr_mappings l locals layout)
  | .unary _ e => discover_expr_mappings e locals layout
  | .call callee args =>
    discover_expr_list args locals (discover_expr_mappings callee locals layout)
  | .member base _ => discover_expr_mappings base locals layout
  | _ => layout

def discover_expr_list (exprs : List Expression) (locals : List String)
    (layout : StorageLayout) : StorageLayout :=
  match exprs with
  | [] => layout
  | e :: rest => discover_expr_list rest locals (discover_expr_mappings e locals layout)

end

mutual

/-- `discover_state` of `storage.rs`: walks a statement list, threading the
(mutably shared) `locals` vector and the layout. -/
def discover_state (stmts : List Statement) (locals : List String)
    (layout : StorageLayout) : List String × StorageLayout :=
  match stmts with
  | [] => (locals, layout)
  | stmt :: rest =>
    let (locals1, layout1) := discover_stmt stmt locals layout
    discover_state rest locals1 layout1

def discover_stmt (stmt : Statement) (locals : List String)
    (layout : StorageLayout) : List String × StorageLayout :=
  match stmt with
  | .letS l =>
    let layout1 :=
      match l.value with
      | some v => discover_expr_mappings v locals layout
      | none => layout
    (locals ++ [l.name], layout1)
  | .assign a =>
    let layout1 := discover_target a.target locals layout
    (locals, discover_expr_mappings a.value locals layout1)
  | .ret (some e) => (locals, discover_expr_mappings e locals layout)
  | .require e => (locals, discover_expr_mappings e locals layout)
  | .expr e => (locals, discover_expr_mappings e locals layout)
  | .emit em => (locals, discover_expr_list em.args locals layout)
  | .ifS (.mk cond (.mk thenStmts _) elseBranch _) =>
    let layout1 := discover_expr_mappings cond locals layout
    let (locals2, layout2) := discover_state thenStmts locals layout1
    match elseBranch with
    | some (.mk elseStmts _) => discover_state elseStmts locals2 layout2
    | none => (locals2, layout2)
  | .forS h (.mk bodyStmts _) =>
    let layout1 := discover_expr_mappings h.iterable locals layout
    let inner := locals ++ [h.var]
    let (_, layout2) := discover_state bodyStmts inner layout1
    (locals, layout2)
  | .whileS cond (.mk bodyStmts _) _ =>
    let layout1 := discover_expr_mappings cond locals layout
    discover_state bodyStmts locals layout1
  | .ret none => (locals, layout)

end

/-- `StorageLayout::from_program`: consts, then struct fields, then
state-variable discovery over every function body. -/
def StorageLayout.from_program (program : Program) : StorageLayout :=
  let layout0 : StorageLayout := { slots := [], next_slot := 0 }
  let layout1 := program.items.foldl
    (fun layout item =>
      match item with
      | .constItem c =>
        let kind := match c.type_ with
          | .map _ _ => StorageKind.mapping
          | _ => StorageKind.value
        layout.alloc c.name kind
      | _ => layout)
    layout0
  let layout2 := program.items.foldl
    (fun layout item =>
      match item with
      | .structItem s =>
        s.fields.foldl
          (fun layout field =>
            let kind := match field.type_ with
              | .map _ _ => StorageKind.mapping
              | _ => StorageKind.value
            layout.alloc field.name kind)
          layout
      | _ => layout)
    layout1
  program.items.foldl
    (fun layout item =>
      match item with
      | .function f =>
        (discover_state f.body.statements (f.params.map (·.name)) layout).2
      | _ => layout)
    layout2

/-! ## Keccak-256

`compute_selector` in `ir.rs` uses the external `tiny_keccak` crate
(`Keccak::v256`): standard Keccak-256 (rate 1088 bits / 136 bytes,
multi-rate padding with domain byte `0x01`). The permutation is embedded
here over `Nat` lanes masked to 64 bits; the embedding is checked below
against the selector value `a9059cbb` of `transfer(address,uint256)`,
which both the spec and the repository's own test suite pin down. -/

def M64 : Nat := 2 ^ 64 - 1

def rotl64 (n r : Nat) : Nat :=
  ((n <<< r) ||| (n >>> (64 - r))) &&& M64

def keccakRC : List Nat :=
  [ 0x0000000000000001, 0x0000000000008082, 0x800000000000808a, 0x8000000080008000,
    0x000000000000808b, 0x0000000080000001, 0x8000000080008081, 0x8000000000008009,
    0x000000000000008a, 0x0000000000000088, 0x0000000080008009, 0x000000008000000a,
    0x000000008000808b, 0x800000000000008b, 0x8000000000008089, 0x8000000000008003,
    0x8000000000008002, 0x8000000000000080, 0x000000000000800a, 0x800000008000000a,
    0x8000000080008081, 0x8000000000008080, 0x0000000080000001, 0x8000000080008008 ]

/-- Rotation offsets of the rho step, indexed by lane `x + 5*y`. -/
def keccakRho : List Nat :=
  [0, 1, 62, 28, 27] ++ [36, 44, 6, 55, 20] ++ [3, 10, 43, 25, 39] ++
    [41, 45, 15, 21, 8] ++ [18, 2, 61, 56, 14]

def lane (st : List Nat) (i : Nat) : Nat := st.getD i 0

def keccakTheta (st : List Nat) : List Nat :=
  let c := (List.range 5).map (fun x =>
    lane st x ^^^ lane st (x + 5) ^^^ lane st (x + 10) ^^^ lane st (x + 15) ^^^ lane st (x + 20))
  let d := (List.range 5).map (fun x =>
    c.getD ((x + 4) % 5) 0 ^^^ rotl64 (c.getD ((x + 1) % 5) 0) 1)
  (List.range 25).map (fun i => lane st i ^^^ d.getD (i % 5) 0)

def keccakRhoPi (st : List Nat) : List Nat :=
  (List.range 25).map (fun i =>
    let y := i / 5
    let x := i % 5
    -- B[y + 3x assembled inverse]: B[x,y] = rot(A[x',y'], r) with x' = x+3y mod 5, y' = x
    let xs := (x + 3 * y) % 5
    let ys := x
    let j := xs + 5 * ys
    rotl64 (lane st j) (keccakRho.getD j 0))

def keccakChi (st : List Nat) : List Nat :=
  (List.range 25).map (fun i =>
    let y := i / 5
    let x := i % 5
    lane st i ^^^ ((lane st ((x + 1) % 5 + 5 * y) ^^^ M64) &&& lane st ((x + 2) % 5 + 5 * y)))

def keccakRound (st : List Nat) (rc : Nat) : List Nat :=
  let st1 := keccakChi (keccakRhoPi (keccakTheta st))
  match st1 with
  | a0 :: rest => (a0 ^^^ rc) :: rest
  | [] => []

def keccakF (st : List Nat) : List Nat :=
  keccakRC.foldl keccakRound st

/-- Multi-rate padding with Keccak domain byte `0x01`: append `0x01`, zero
bytes up to the rate, and OR `0x80` into the final byte. -/
def keccakPad (msg : List Nat) : List Nat :=
  let r := 136
  let k := r - (msg.length % r)
  if k = 1 then msg ++ [0x81]
  else msg ++ [0x01] ++ List.replicate (k - 2) 0 ++ [0x80]

/-- Little-endian bytes of one 64-bit lane. -/
def laneToBytes (n : Nat) : List Nat :=
  (List.range 8).map (fun i => (n >>> (8 * i)) &&& 0xff)

/-- One 64-bit lane from eight little-endian bytes. -/
def bytesToLane (bs : List Nat) : Nat :=
  (List.range 8).foldl (fun acc i => acc ||| ((bs.getD i 0) <<< (8 * i))) 0

def absorbBlock (st : List Nat) (block : List Nat) : List Nat :=
  let st1 := (List.range 25).map (fun i =>
    if i < 17 then lane st i ^^^ bytesToLane ((block.drop (8 * i)).take 8) else lane st i)
  keccakF st1

def splitBlocksAux : Nat → List Nat → List (List Nat)
  | 0, _ => []
  | fuel + 1, bytes =>
    if bytes.length = 0 then []
    else if bytes.length ≤ 136 then [bytes.take 136]
    else bytes.take 136 :: splitBlocksAux fuel (bytes.drop 136)

def splitBlocks (bytes : List Nat) : List (List Nat) :=
  splitBlocksAux bytes.length bytes

def keccak256 (msg : List Nat) : List Nat :=
  let padded := keccakPad msg
  let st := (splitBlocks padded).foldl absorbBlock (List.replicate 25 0)
  ((st.take 4).map laneToBytes).flatten

/-- UTF-8 bytes of a string (all strings hashed by the compiler are
ASCII, for which the code points are the bytes). -/
def strBytes (s : String) : List Nat :=
  s.toList.map Char.toNat

/-! ## IR lowering (`ir.rs`) -/

def u64_to_bytes (n : Nat) : List Nat :=
  if n = 0 then [0] else toBytesBE n

def usize_to_bytes (n : Nat) : List Nat :=
  u64_to_bytes n

/-- `biguint_to_push_bytes`: minimal big-endian bytes, `0` as `[0]`. -/
def biguint_to_push_bytes (n : Nat) : List Nat :=
  if n = 0 then [0] else toBytesBE n

structure LowerCtx where
  layout : StorageLayout
  params : List (String × Nat)
  locals : List (String × Nat)
  next_mem : Nat
  label_count : Nat

def LowerCtx.freshLabel (ctx : LowerCtx) : Nat × LowerCtx :=
  (ctx.label_count, { ctx with label_count := ctx.label_count + 1 })

def LowerCtx.allocLocal (ctx : LowerCtx) (name : String) : Nat × LowerCtx :=
  (ctx.next_mem,
   { ctx with locals := (name, ctx.next_mem) :: ctx.locals,
              next_mem := ctx.next_mem + 32 })

def LowerCtx.resetForFunction (ctx : LowerCtx) : LowerCtx :=
  { ctx with params := [], locals := [], next_mem := 0x80 }

def assocGet (l : List (String × Nat)) (name : String) : Option Nat :=
  (l.find? (fun p => p.1 = name)).map Prod.snd

def type_to_abi_string (ty : Ty) : String :=
  match ty with
  | .uint8 => "uint8"
  | .uint256 => "uint256"
  | .int256 => "int256"
  | .bool => "bool"
  | .address => "address"
  | .bytes => "bytes"
  | .string => "string"
  | _ => "bytes"

/-- `compute_selector`: first 4 bytes of Keccak-256 over the canonical
signature string. -/
def compute_selector (f : Function) : List Nat :=
  let sig := f.name ++ "(" ++ String.intercalate "," (f.params.map (fun p => type_to_abi_string p.type_)) ++ ")"
  (keccak256 (strBytes sig)).take 4

/-- `lower_mapping_key`: hash `key ‖ slot` in scratch memory. -/
def lower_mapping_key_ops (slot : Nat) (keyOps : List IrOp) : List IrOp :=
  keyOps ++
  [ .push [0x00], .mstore,
    .push (u64_to_bytes slot), .push [0x20], .mstore,
    .push [0x40], .push [0x00], .keccak256 ]

mutual

/-- `lower_expression_into` of `ir.rs` (the ops appended for one
expression; the context is read-only during expression lowering). -/
def lower_expression_into (ctx : LowerCtx) (expr : Expression) : List IrOp :=
  match expr with
  | .number n => [.push (biguint_to_push_bytes n)]
  | .hexNumber n => [.push (biguint_to_push_bytes n)]
  | .boolLit b => [.push [if b then 1 else 0]]
  | .stringLit _ => [.push [0]]
  | .bytesLit b => if b.isEmpty then [.push [0]] else [.push b]
  | .identifier name =>
    match assocGet ctx.params name with
    | some off => [.push (usize_to_bytes off), .callDataLoad]
    | none =>
      match assocGet ctx.locals name with
      | some off => [.push (usize_to_bytes off), .mload]
      | none =>
        match ctx.layout.get name with
        | some slot =>
          if slot.kind = .value then [.push (u64_to_bytes slot.slot), .sload] else []
        | none => []
  | .member base field =>
    match base with
    | .identifier name =>
      if name = "msg" && field = "sender" then [.caller]
      else if name = "msg" && field = "value" then [.callValue]
      else [.push [0]]
    | _ => [.push [0]]
  | .index base key =>
    match base with
    | .identifier name =>
      match ctx.layout.get name with
      | some slot =>
        lower_mapping_key_ops slot.slot (lower_expression_into ctx key) ++ [.sload]
      | none => []
    | _ => []
  | .binary op left right =>
    lower_expression_into ctx left ++ lower_expression_into ctx right ++
    (match op with
     | .add => [.add]
     | .sub => [.swap 1, .sub]
     | .mul => [.mul]
     | .div => [.swap 1, .div]
     | .mod => [.swap 1, .mod]
     | .pow => [.swap 1, .exp]
     | .equal => [.eq]
     | .notEqual => [.eq, .isZero]
     | .less => [.swap 1, .lt]
     | .greater => [.swap 1, .gt]
     | .lessEqual => [.swap 1, .gt, .isZero]
     | .greaterEqual => [.swap 1, .lt, .isZero]
     | .and => [.and]
     | .or => [.or])
  | .unary op operand =>
    lower_expression_into ctx operand ++
    (match op with
     | .not => [.isZero]
     | .minus => [.push [0], .sub])
  | .call callee args =>
    lower_expression_into ctx callee ++ lower_expression_list ctx args
  | .structInit _ _ => [.push [0]]

def lower_expression_list (ctx : LowerCtx) (exprs : List Expression) : List IrOp :=
  match exprs with
  | [] => []
  | e :: rest => lower_expression_into ctx e ++ lower_expression_list ctx rest

end

/-- `lower_assign` of `ir.rs`. -/
def lower_assign (ctx : LowerCtx) (target value : Expression) : List IrOp :=
  match target with
  | .identifier name =>
    let valueOps := lower_expression_into ctx value
    match assocGet ctx.locals name with
    | some off => valueOps ++ [.push (usize_to_bytes off), .mstore]
    | none =>
      match ctx.layout.get name with
      | some slot => valueOps ++ [.push (u64_to_bytes slot.slot), .sstore]
      | none => valueOps
  | .index base key =>
    match base with
    | .identifier name =>
      match ctx.layout.get name with
      | some slot =>
        lower_expression_into ctx value ++
        lower_mapping_key_ops slot.slot (lower_expression_into ctx key) ++ [.sstore]
      | none => []
    | _ => []
  | _ => []

/-- `lower_emit` of `ir.rs`. -/
def lower_emit (ctx : LowerCtx) (em : EmitStatement) : List IrOp :=
  let headOps :=
    match em.args.head? with
    | some firstArg => lower_expression_into ctx firstArg ++ [.push [0x00], .mstore]
    | none => []
  let data_size : Nat := if em.args.isEmpty then 0 else 0x20
  headOps ++ [.push [data_size], .push [0x00], .log 0]

mutual

def lower_block (ctx : LowerCtx) (stmts : List Statement) : List IrOp × LowerCtx :=
  match stmts with
  | [] => ([], ctx)
  | stmt :: rest =>
    let (ops1, ctx1) := lower_statement ctx stmt
    let (ops2, ctx2) := lower_block ctx1 rest
    (ops1 ++ ops2, ctx2)

/-- `lower_statement` of `ir.rs`. -/
def lower_statement (ctx : LowerCtx) (stmt : Statement) : List IrOp × LowerCtx :=
  match stmt with
  | .ret (some e) =>
    (lower_expression_into ctx e ++
     [.push [0x40], .mstore, .push [0x20], .push [0x40], .ret], ctx)
  | .ret none => ([.stop], ctx)
  | .require e =>
    let (continueLabel, ctx1) := ctx.freshLabel
    (lower_expression_into ctx1 e ++
     [.jumpI continueLabel, .push [0x00], .push [0x00], .revert,
      .jumpDest continueLabel], ctx1)
  | .letS l =>
    let (off, ctx1) := ctx.allocLocal l.name
    match l.value with
    | some v =>
      (lower_expression_into ctx1 v ++ [.push (usize_to_bytes off), .mstore], ctx1)
    | none => ([], ctx1)
  | .assign a => (lower_assign ctx a.target a.value, ctx)
  | .ifS (.mk cond (.mk thenStmts _) elseBranch _) =>
    let (elseLabel, ctxA) := ctx.freshLabel
    let (endLabel, ctxB) := ctxA.freshLabel
    let condOps := lower_expression_into ctxB cond
    let (thenOps, ctxC) := lower_block ctxB thenStmts
    let (elseOps, ctxD) :=
      match elseBranch with
      | some (.mk elseStmts _) => lower_block ctxC elseStmts
      | none => ([], ctxC)
    (condOps ++ [.isZero, .jumpI elseLabel] ++
     thenOps ++ [.jump endLabel, .jumpDest elseLabel] ++
     elseOps ++ [.jumpDest endLabel], ctxD)
  | .forS _ _ => ([.stop], ctx)
  | .whileS cond (.mk bodyStmts _) _ =>
    let (loopLabel, ctxA) := ctx.freshLabel
    let (endLabel, ctxB) := ctxA.freshLabel
    let condOps := lower_expression_into ctxB cond
    let (bodyOps, ctxC) := lower_block ctxB bodyStmts
    ([.jumpDest loopLabel] ++ condOps ++ [.isZero, .jumpI endLabel] ++
     bodyOps ++ [.jump loopLabel, .jumpDest endLabel], ctxC)
  | .emit em => (lower_emit ctx em, ctx)
  | .expr e => (lower_expression_into ctx e ++ [.pop], ctx)

end

def IrOp.isTerminator : IrOp → Bool
  | .ret | .revert | .stop => true
  | _ => false

/-- `lower_program` of `ir.rs`: consts into the constructor, then each
function (an `init` body is appended to the constructor), appending a
`Stop` when no terminator occurs anywhere in the lowered ops. -/
def lower_program (program : Program) : IrModule :=
  let layout := StorageLayout.from_program program
  let ctx0 : LowerCtx :=
    { layout := layout, params := [], locals := [], next_mem := 0x80, label_count := 0 }
  let ctorConsts :=
    program.items.foldl
      (fun acc item =>
        match item with
        | .constItem c =>
          match layout.get c.name with
          | some slot =>
            acc ++ lower_expression_into ctx0 c.value ++ [.push (u64_to_bytes slot.slot), .sstore]
          | none => acc
        | _ => acc)
      []
  let step := fun (st : List IrFunction × List IrOp × LowerCtx) (item : Item) =>
    let (functions, constructor_ops, ctx) := st
    match item with
    | .function f =>
      let ctx := ctx.resetForFunction
      if f.name = "init" then
        let ctx := { ctx with
          params := (f.params.enum.map (fun pi => (pi.2.name, 4 + 32 * pi.1))).reverse }
        let (ops, ctx1) := lower_block ctx f.body.statements
        (functions, constructor_ops ++ ops, ctx1)
      else
        let (label, ctx1) := ctx.freshLabel
        let ctx2 := { ctx1 with
          params := (f.params.enum.map (fun pi => (pi.2.name, 4 + 32 * pi.1))).reverse }
        let (bodyOps, ctx3) := lower_block ctx2 f.body.statements
        let ops0 := .jumpDest label :: bodyOps
        let ops := if ops0.any (fun op => op.isTerminator) then ops0 else ops0 ++ [.stop]
        (functions ++
         [{ name := f.name, selector := compute_selector f, ops := ops, label := label }],
         constructor_ops, ctx3)
    | _ => st
  let (functions, constructor_ops, ctxF) :=
    program.items.foldl step ([], ctorConsts, ctx0)
  { functions := functions, constructor_ops := constructor_ops,
    label_count := ctxF.label_count }


/-! ## Assembler (`codegen.rs`)

The Rust entry points return `Result<Vec<u8>, CodegenError>` but the
assembly paths construct `Ok` unconditionally (the `CodegenError`
variants arise only in legacy constant-folding paths that are not part of
these functions), so the embedding returns the byte list directly. Bytes
are `Nat`s reduced mod 256 where the Rust `u8` arithmetic could wrap. -/

structure Emitter where
  code : List Nat
  labels : List (Nat × Nat)
  patches : List (Nat × Nat)

def Emitter.new : Emitter := ⟨[], [], []⟩

def Emitter.byte (em : Emitter) (b : Nat) : Emitter :=
  { em with code := em.code ++ [b] }

def Emitter.push_data (em : Emitter) (data : List Nat) : Emitter :=
  { em with code := em.code ++ [(0x5f + data.length) % 256] ++ data }

def Emitter.label_ref (em : Emitter) (label : Nat) : Emitter :=
  { em with code := em.code ++ [0x61, 0x00, 0x00],
            patches := em.patches ++ [(em.code.length + 1, label)] }

def Emitter.mark_label (em : Emitter) (label : Nat) : Emitter :=
  { em with labels := (label, em.code.length) :: em.labels,
            code := em.code ++ [0x5b] }

/-- Patch each recorded label reference with the 2-byte big-endian offset
of its `JumpDest` (the `u16` cast reduces mod `2^16`); unresolved labels
stay zero. -/
def Emitter.resolve (em : Emitter) : Emitter :=
  let patched :=
    em.patches.foldl
      (fun code pl =>
        match (em.labels.find? (fun p => p.1 = pl.2)).map Prod.snd with
        | some offset =>
          (code.set pl.1 (offset % 65536 / 256)).set (pl.1 + 1) (offset % 256)
        | none => code)
      em.code
  { em with code := patched }

def Emitter.emit_op (em : Emitter) (op : IrOp) : Emitter :=
  match op with
  | .push data => em.push_data data
  | .pop => em.byte 0x50
  | .dup n => em.byte ((0x7f + n) % 256)
  | .swap n => em.byte ((0x8f + n) % 256)
  | .add => em.byte 0x01
  | .mul => em.byte 0x02
  | .sub => em.byte 0x03
  | .div => em.byte 0x04
  | .sdiv => em.byte 0x05
  | .mod => em.byte 0x06
  | .exp => em.byte 0x0a
  | .lt => em.byte 0x10
  | .gt => em.byte 0x11
  | .eq => em.byte 0x14
  | .isZero => em.byte 0x15
  | .and => em.byte 0x16
  | .or => em.byte 0x17
  | .not => em.byte 0x19
  | .shr => em.byte 0x1c
  | .mload => em.byte 0x51
  | .mstore => em.byte 0x52
  | .sload => em.byte 0x54
  | .sstore => em.byte 0x55
  | .jump label => (em.label_ref label).byte 0x56
  | .jumpI label => (em.label_ref label).byte 0x57
  | .jumpDest label => em.mark_label label
  | .caller => em.byte 0x33
  | .callValue => em.byte 0x34
  | .callDataLoad => em.byte 0x35
  | .callDataSize => em.byte 0x36
  | .keccak256 => em.byte 0x20
  | .ret => em.byte 0xf3
  | .revert => em.byte 0xfd
  | .log n => em.byte ((0xa0 + n) % 256)
  | .stop => em.byte 0x00
  | .invalid => em.byte 0xfe

def Emitter.into_bytes (em : Emitter) : List Nat :=
  em.resolve.code

/-- `module_to_runtime`: selector dispatcher (when any function exists),
unmatched-selector fallback revert, then the function bodies with a `Pop`
inserted right after each entry `JumpDest`. -/
def module_to_runtime (m : IrModule) : List Nat :=
  let em := Emitter.new
  let em :=
    if m.functions.isEmpty then em
    else
      let em := (((em.push_data [0x00]).byte 0x35).push_data [0xe0]).byte 0x1c
      m.functions.foldl
        (fun em func =>
          ((((em.byte 0x80).push_data func.selector).byte 0x14).label_ref func.label).byte 0x57)
        em
  let em := ((em.push_data [0x00]).push_data [0x00]).byte 0xfd
  let em :=
    m.functions.foldl
      (fun em func =>
        (func.ops.enum.foldl
          (fun em iop =>
            let em2 := em.emit_op iop.2
            if iop.1 = 0 && (match iop.2 with | .jumpDest _ => true | _ => false)
            then em2.byte 0x50 else em2)
          em))
      em
  em.into_bytes

def program_to_runtime_bytecode (program : Program) : List Nat :=
  module_to_runtime (lower_program program)

/-- `push_usize` of `codegen.rs`. -/
def push_usize (value : Nat) : List Nat :=
  if value = 0 then [0x60, 0x00]
  else
    let bytes := toBytesBE value
    (0x5f + bytes.length) % 256 :: bytes

/-- One candidate CODECOPY prelude of `build_deploy`, built from the
current prelude-length estimate `cr_len`. -/
def mkPrelude (ctor_len runtime_len cr_len : Nat) : List Nat :=
  push_usize runtime_len ++ push_usize (ctor_len + cr_len) ++ push_usize 0 ++ [0x39] ++
  push_usize runtime_len ++ push_usize 0 ++ [0xf3]

/-- The fixed-point loop of `build_deploy` (8 bounded iterations; the
fallback after the loop emits the prelude built from the last estimate). -/
def build_deploy_loop (constructor runtime : List Nat) : Nat → Nat → List Nat
  | 0, cr_len =>
    constructor ++ mkPrelude constructor.length runtime.length cr_len ++ runtime
  | fuel + 1, cr_len =>
    let cr := mkPrelude constructor.length runtime.length cr_len
    if cr.length = cr_len then constructor ++ cr ++ runtime
    else build_deploy_loop constructor runtime fuel cr.length

def build_deploy (constructor runtime : List Nat) : List Nat :=
  build_deploy_loop constructor runtime 8 0

/-- `program_to_deploy_bytecode`: assemble the constructor ops (skipping
`Return`/`Stop`), assemble the runtime, and wrap with the CODECOPY
prelude. -/
def program_to_deploy_bytecode (program : Program) : List Nat :=
  let m := lower_program program
  let ctor_em :=
    m.constructor_ops.foldl
      (fun em op =>
        match op with
        | .ret => em
        | .stop => em
        | _ => em.emit_op op)
      Emitter.new
  let ctor_bytes := ctor_em.into_bytes
  let runtime := module_to_runtime m
  build_deploy ctor_bytes runtime


/-! ## Type checker (`typer.rs`)

`check_program` accumulates diagnostics in emission order. The Rust
`HashMap` environments become association lists (front = most recent
insertion, matching `HashMap::insert` overwrite semantics); the
`layout.iter()` loop in `check_program` iterates a `HashMap` in
unspecified order, but every name it inserts is distinct and the loop
emits no diagnostics, so insertion order is unobservable and the
embedding iterates the layout in its insertion order. -/

inductive TypeError where
  | undefined (name : String)
  | mismatch (expected got : String)
  | binaryOpErr (op left right : String)
  | requireBool (got : String)
  | returnMismatch (expected got : String)
  | indexNonMapping (got : String)
  | duplicate (name : String)
  deriving DecidableEq, Repr

/-- Rust `format!("{:?}", op)` on `BinaryOp` (derived `Debug` names). -/
def fmt_binary_op : BinaryOp → String
  | .add => "Add"
  | .sub => "Sub"
  | .mul => "Mul"
  | .div => "Div"
  | .mod => "Mod"
  | .pow => "Pow"
  | .equal => "Equal"
  | .notEqual => "NotEqual"
  | .less => "Less"
  | .greater => "Greater"
  | .lessEqual => "LessEqual"
  | .greaterEqual => "GreaterEqual"
  | .and => "And"
  | .or => "Or"

mutual

def fmt_type : Ty → String
  | .uint8 => "uint8"
  | .uint256 => "uint256"
  | .int256 => "int256"
  | .bool => "bool"
  | .address => "address"
  | .bytes => "bytes"
  | .string => "string"
  | .vec inner => "Vec<" ++ fmt_type inner ++ ">"
  | .map k v => "Map<" ++ fmt_type k ++ "," ++ fmt_type v ++ ">"
  | .custom name => name
  | .generic name args => name ++ "<" ++ String.intercalate "," (fmt_type_list args) ++ ">"

def fmt_type_list : List Ty → List String
  | [] => []
  | t :: rest => fmt_type t :: fmt_type_list rest

end

mutual

/-- Structural equality on `Ty` (the Rust derived `PartialEq`). -/
def beqTy : Ty → Ty → Bool
  | .uint8, .uint8 => true
  | .uint256, .uint256 => true
  | .int256, .int256 => true
  | .bool, .bool => true
  | .address, .address => true
  | .bytes, .bytes => true
  | .string, .string => true
  | .vec a, .vec b => beqTy a b
  | .map ka va, .map kb vb => beqTy ka kb && beqTy va vb
  | .custom a, .custom b => a = b
  | .generic na aa, .generic nb ab => na = nb && beqTyList aa ab
  | _, _ => false

def beqTyList : List Ty → List Ty → Bool
  | [], [] => true
  | a :: as1, b :: bs1 => beqTy a b && beqTyList as1 bs1
  | _, _ => false

end

instance : BEq Ty := ⟨beqTy⟩

def is_numeric : Ty → Bool
  | .uint256 | .uint8 | .int256 => true
  | _ => false

def wider_numeric (a b : Ty) : Ty :=
  match a, b with
  | .uint256, _ => .uint256
  | _, .uint256 => .uint256
  | .int256, _ => .int256
  | _, .int256 => .int256
  | _, _ => a

def types_compatible (expected got : Ty) : Bool :=
  expected == got || (is_numeric expected && is_numeric got)

structure CheckCtx where
  globals : List (String × Ty)
  scopes : List (List (String × Ty))
  errors : List TypeError
  current_return : Option Ty

def CheckCtx.pushScope (ctx : CheckCtx) : CheckCtx :=
  { ctx with scopes := [] :: ctx.scopes }

def CheckCtx.popScope (ctx : CheckCtx) : CheckCtx :=
  { ctx with scopes := ctx.scopes.tail }

def CheckCtx.define (ctx : CheckCtx) (name : String) (ty : Ty) : CheckCtx :=
  match ctx.scopes with
  | [] => ctx
  | scope :: rest => { ctx with scopes := ((name, ty) :: scope) :: rest }

def CheckCtx.lookup (ctx : CheckCtx) (name : String) : Option Ty :=
  match ctx.scopes.findSome? (fun scope => (scope.find? (fun p => p.1 = name)).map Prod.snd) with
  | some ty => some ty
  | none => (ctx.globals.find? (fun p => p.1 = name)).map Prod.snd

def CheckCtx.err (ctx : CheckCtx) (e : TypeError) : CheckCtx :=
  { ctx with errors := ctx.errors ++ [e] }

def infer_binary_op (ctx : CheckCtx) (op : BinaryOp) (left right : Option Ty) :
    Option Ty × CheckCtx :=
  match op with
  | .add | .sub | .mul | .div | .mod | .pow =>
    match left, right with
    | some l, some r =>
      if is_numeric l && is_numeric r then (some (wider_numeric l r), ctx)
      else (some .uint256, ctx.err (.binaryOpErr (fmt_binary_op op) (fmt_type l) (fmt_type r)))
    | _, _ => (some .uint256, ctx)
  | .equal | .notEqual => (some .bool, ctx)
  | .less | .greater | .lessEqual | .greaterEqual => (some .bool, ctx)
  | .and | .or =>
    match left, right with
    | some l, some r =>
      if !(l == Ty.bool) || !(r == Ty.bool) then
        (some .bool, ctx.err (.binaryOpErr (fmt_binary_op op) (fmt_type l) (fmt_type r)))
      else (some .bool, ctx)
    | _, _ => (some .bool, ctx)

mutual

/-- `infer_expression` of `typer.rs`. -/
def infer_expression (ctx : CheckCtx) (expr : Expression) : Option Ty × CheckCtx :=
  match expr with
  | .number _ => (some .uint256, ctx)
  | .hexNumber _ => (some .uint256, ctx)
  | .boolLit _ => (some .bool, ctx)
  | .stringLit _ => (some .string, ctx)
  | .bytesLit _ => (some .bytes, ctx)
  | .identifier name =>
    if is_builtin name then (none, ctx)
    else
      match ctx.lookup name with
      | some ty => (some ty, ctx)
      | none => (none, ctx.err (.undefined name))
  | .member base field =>
    match base with
    | .identifier name =>
      if name = "msg" && field = "sender" then (some .address, ctx)
      else if name = "msg" && field = "value" then (some .uint256, ctx)
      else if name = "block" && field = "timestamp" then (some .uint256, ctx)
      else if name = "block" && field = "number" then (some .uint256, ctx)
      else
        let (_, ctx1) := infer_expression ctx base
        (none, ctx1)
    | _ =>
      let (_, ctx1) := infer_expression ctx base
      (none, ctx1)
  | .index base key =>
    let (base_ty, ctx1) := infer_expression ctx base
    let (_, ctx2) := infer_expression ctx1 key
    match base_ty with
    | some (.map _ v) => (some v, ctx2)
    | _ => (none, ctx2)
  | .binary op left right =>
    let (lt, ctx1) := infer_expression ctx left
    let (rt, ctx2) := infer_expression ctx1 right
    infer_binary_op ctx2 op lt rt
  | .unary op operand =>
    let (t, ctx1) := infer_expression ctx operand
    match op with
    | .not => (some .bool, ctx1)
    | .minus => (t, ctx1)
  | .call callee args =>
    let (_, ctx1) := infer_expression ctx callee
    let ctx2 := infer_expression_list ctx1 args
    (none, ctx2)
  | .structInit name fields =>
    let ctx1 := infer_field_list ctx fields
    (some (.custom name), ctx1)

def infer_expression_list (ctx : CheckCtx) (exprs : List Expression) : CheckCtx :=
  match exprs with
  | [] => ctx
  | e :: rest =>
    let (_, ctx1) := infer_expression ctx e
    infer_expression_list ctx1 rest

def infer_field_list (ctx : CheckCtx) (fields : List (String × Expression)) : CheckCtx :=
  match fields with
  | [] => ctx
  | f :: rest =>
    let (_, ctx1) := infer_expression ctx f.2
    infer_field_list ctx1 rest

end

mutual

def check_block (ctx : CheckCtx) (stmts : List Statement) : CheckCtx :=
  match stmts with
  | [] => ctx
  | stmt :: rest => check_block (check_statement ctx stmt) rest

/-- `check_statement` of `typer.rs`. -/
def check_statement (ctx : CheckCtx) (stmt : Statement) : CheckCtx :=
  match stmt with
  | .letS l =>
    match l.value with
    | some val =>
      let (val_ty, ctx1) := infer_expression ctx val
      let ctx2 :=
        match l.type_, val_ty with
        | some declared, some inferred =>
          if !types_compatible declared inferred then
            ctx1.err (.mismatch (fmt_type declared) (fmt_type inferred))
          else ctx1
        | _, _ => ctx1
      let ty := (l.type_.or val_ty).getD .uint256
      ctx2.define l.name ty
    | none =>
      ctx.define l.name (l.type_.getD .uint256)
  | .assign a =>
    let (_, ctx1) := infer_expression ctx a.target
    let (_, ctx2) := infer_expression ctx1 a.value
    ctx2
  | .ret (some e) =>
    let (val_ty, ctx1) := infer_expression ctx e
    match ctx1.current_return, val_ty with
    | some expected, some got =>
      if !types_compatible expected got then
        ctx1.err (.returnMismatch (fmt_type expected) (fmt_type got))
      else ctx1
    | _, _ => ctx1
  | .ret none => ctx
  | .require e =>
    let (ty, ctx1) := infer_expression ctx e
    match ty with
    | some t => if !(t == Ty.bool) then ctx1.err (.requireBool (fmt_type t)) else ctx1
    | none => ctx1
  | .ifS (.mk cond (.mk thenStmts _) elseBranch _) =>
    let (cond_ty, ctx1) := infer_expression ctx cond
    let ctx2 :=
      match cond_ty with
      | some t => if !(t == Ty.bool) then ctx1.err (.mismatch "bool" (fmt_type t)) else ctx1
      | none => ctx1
    let ctx3 := check_block ctx2 thenStmts
    match elseBranch with
    | some (.mk elseStmts _) => check_block ctx3 elseStmts
    | none => ctx3
  | .forS h (.mk bodyStmts _) =>
    let ctx1 := (ctx.pushScope.define h.var .uint256)
    (check_block ctx1 bodyStmts).popScope
  | .whileS cond (.mk bodyStmts _) _ =>
    let (cond_ty, ctx1) := infer_expression ctx cond
    let ctx2 :=
      match cond_ty with
      | some t => if !(t == Ty.bool) then ctx1.err (.mismatch "bool" (fmt_type t)) else ctx1
      | none => ctx1
    check_block ctx2 bodyStmts
  | .emit em => infer_expression_list ctx em.args
  | .expr e =>
    let (_, ctx1) := infer_expression ctx e
    ctx1

end

def check_function (ctx : CheckCtx) (f : Function) : CheckCtx :=
  let ctx1 := { ctx.pushScope with current_return := f.return_type }
  let ctx2 := f.params.foldl (fun c p => c.define p.name p.type_) ctx1
  let ctx3 := check_block ctx2 f.body.statements
  ({ ctx3 with current_return := none }).popScope

/-- `check_program` of `typer.rs`. -/
def check_program (program : Program) : List TypeError :=
  let ctx0 : CheckCtx := { globals := [], scopes := [], errors := [], current_return := none }
  let layout := StorageLayout.from_program program
  let ctx1 :=
    program.items.foldl
      (fun ctx item =>
        match item with
        | .constItem c => { ctx with globals := (c.name, c.type_) :: ctx.globals }
        | _ => ctx)
      ctx0
  let ctx2 :=
    layout.slots.foldl
      (fun ctx ns =>
        if ctx.globals.any (fun p => p.1 = ns.1) then ctx
        else
          let ty := match ns.2.kind with
            | .mapping => Ty.map .uint256 .uint256
            | .value => Ty.uint256
          { ctx with globals := (ns.1, ty) :: ctx.globals })
      ctx1
  let ctx3 :=
    program.items.foldl
      (fun ctx item =>
        match item with
        | .function f => check_function ctx f
        | _ => ctx)
      ctx2
  ctx3.errors


/-! ## Concrete claim inputs -/

/-- The all-zero span the parser attaches to every node. -/
def sp0 : Span := ⟨0, 0⟩

/-- AST of `def t() -> uint256: return 1 + 2` (spec scenario 4). -/
def addOneTwoProgram : Program :=
  ⟨[.function ⟨"t", [], some .uint256,
      .mk [.ret (some (.binary .add (.number 1) (.number 2)))] sp0, sp0⟩], sp0⟩

/-- AST of `def t():\n    require true\n`. -/
def requireProgram : Program :=
  ⟨[.function ⟨"t", [], none, .mk [.require (.boolLit true)] sp0, sp0⟩], sp0⟩

/-- AST of `const msg: uint256 = 1` (a const whose name is the builtin
`msg`; the lexer treats `msg` as a plain identifier and
`const_item_parser` accepts any identifier as the const name). -/
def constMsgProgram : Program :=
  ⟨[.constItem ⟨"msg", .uint256, .number 1, sp0⟩], sp0⟩

/-- AST of `def t(a: uint256) -> uint256: return a[1]` (indexing a
non-mapping). -/
def indexNonMappingProgram : Program :=
  ⟨[.function ⟨"t", [⟨"a", .uint256, sp0⟩], some .uint256,
      .mk [.ret (some (.index (.identifier "a") (.number 1)))] sp0, sp0⟩], sp0⟩

/-- AST of `def t() -> bool: return balances[1]` (indexing the discovered
state mapping `balances`, whose placeholder type is
`Map(Uint256, Uint256)`). -/
def mapIndexProgram : Program :=
  ⟨[.function ⟨"t", [], some .bool,
      .mk [.ret (some (.index (.identifier "balances") (.number 1)))] sp0, sp0⟩], sp0⟩

/-! ## Claim theorems -/

/-- C1: refuted (code bug). `harden` substitutes `emit_checked_add` for
`IrOp::Add`, but on operand stack `a = 1` (pushed first), `b = 2` (top),
where `sum = 3 ≥ a` and the claim requires the sequence to leave `sum`,
the sequence reverts; and on `a = 1`, `b = 2^256 - 1` (overflow,
`sum = 0 < a`), where the claim requires a revert, the sequence succeeds
and leaves the operand `b` rather than `sum`. (The emitted comparison
tests `sum ≤ b` instead of `¬(sum < a)`, and the cleanup
`Swap2 Pop Swap1 Pop` pops `sum` and keeps `b`.) -/
theorem c1_checked_add_diverges :
    harden_ops [IrOp.add] 7 = (emit_checked_add 7, 8) ∧
    runOps (emit_checked_add 0) 100 0 [2, 1] = .reverted ∧
    runOps (emit_checked_add 0) 100 0 [2 ^ 256 - 1, 1] = .ok [2 ^ 256 - 1] := by
  refine ⟨rfl, by decide, by decide⟩

/-- C2: refuted (code bug). `harden` substitutes `emit_checked_mul` for
`IrOp::Mul`, but on `a = 2` (pushed first), `b = 3` (top), where
`p = 6`, `p / b = 2 = a` and the claim requires the sequence to leave
`p`, the sequence reverts (it computes `b / p = 0 ≠ a`); and on `a = 5`,
`b = 0`, where the claim requires the result `0`, it also reverts (the
zero test reads `a`, not `b`). -/
theorem c2_checked_mul_diverges :
    harden_ops [IrOp.mul] 0 = (emit_checked_mul 0 1, 2) ∧
    runOps (emit_checked_mul 0 1) 100 0 [3, 2] = .reverted ∧
    runOps (emit_checked_mul 0 1) 100 0 [0, 5] = .reverted := by
  refine ⟨rfl, by decide, by decide⟩

/-- C4: refuted (code bug). The non-reverting paths of checked add, sub
and of the multiply ok-branch do consume two operands and produce one,
but the zero branch of checked mul (taken when the first-pushed operand
is `0`) pops both operands, pushes `0`, and then jumps to the shared
ok-label whose cleanup `Swap2 Pop Swap1 Pop` underflows the
single-element stack, so that path does not have net stack delta −1. -/
theorem c4_stack_delta_diverges :
    runOps (emit_checked_add 0) 100 0 [5, 0] = .ok [5] ∧
    runOps (emit_checked_sub 0) 100 0 [5, 3] = .ok [2] ∧
    runOps (emit_checked_mul 0 1) 100 0 [5, 1] = .ok [5] ∧
    runOps (emit_checked_mul 0 1) 100 0 [5, 0] = .stackError := by
  refine ⟨by decide, by decide, by decide, by decide⟩

/-- C6: refuted (code bug). Lowering appends a `Stop` only when no
`Return`/`Revert`/`Stop` occurs anywhere in the lowered ops
(`ops.iter().any(...)`), not when the list fails to end with one. For
`def t():\n    require true\n` the lowered body contains a `Revert` on
the require-failure path, so no `Stop` is appended and the function's
final op is the `JumpDest` of the require continuation label. -/
theorem c6_terminator_diverges :
    (lower_program requireProgram).functions.map (fun f => f.ops) =
      [[.jumpDest 0, .push [1], .jumpI 1, .push [0], .push [0], .revert, .jumpDest 1]] ∧
    (lower_program requireProgram).functions.map
      (fun f => f.ops.getLast?.map IrOp.isTerminator) = [some false] := by
  refine ⟨by decide, by decide⟩

/-- C7 counterexample: the claim "never assigns a slot to the builtin
names" fails on the parseable program `const msg: uint256 = 1`: the
builtin filter of `storage.rs` guards only body discovery
(`discover_target` / `discover_expr_mappings`), not the `Const`/`Struct`
allocation loops, so the const named `msg` receives slot 0. -/
theorem c7_builtin_const_gets_slot :
    (StorageLayout.from_program constMsgProgram).get ("msg") =
      some ⟨0, .value⟩ := by
  decide

/-- C8: refuted (code bug). Indexing a base of inferred type
`Map(K, V)` does yield `V` — checking `def t() -> bool: return
balances[1]` produces exactly the `ReturnMismatch` between `bool` and
the element type `uint256`, certifying the index typing — but indexing a
non-mapping emits no diagnostic at all: `TypeError::IndexNonMapping` is
declared in `typer.rs` yet constructed nowhere, and
`def t(a: uint256) -> uint256: return a[1]` checks with no errors. -/
theorem c8_index_non_mapping_diverges :
    check_program indexNonMappingProgram = [] ∧
    check_program mapIndexProgram = [.returnMismatch ("bool") ("uint256")] := by
  refine ⟨by decide, by decide⟩


/-- Runtime bytes the embedding assembles for
`def t() -> uint256: return 1 + 2` (dispatcher, fallback revert, body
with the bare `Add` opcode `0x01`). -/
def addOneTwoRuntime : List Nat :=
  [0x60, 0x00, 0x35, 0x60, 0xe0, 0x1c, 0x80, 0x63, 0x92, 0xd0, 0xd1, 0x53,
   0x14, 0x61, 0x00, 0x16, 0x57, 0x60, 0x00, 0x60, 0x00, 0xfd, 0x5b, 0x50,
   0x60, 0x01, 0x60, 0x02, 0x01, 0x60, 0x40, 0x52, 0x60, 0x20, 0x60, 0x40, 0xf3]

/-- Runtime bytes that assembling the hardened module would produce for
the same program (checked-add expansion in the body). -/
def addOneTwoHardenedRuntime : List Nat :=
  [0x60, 0x00, 0x35, 0x60, 0xe0, 0x1c, 0x80, 0x63, 0x92, 0xd0, 0xd1, 0x53,
   0x14, 0x61, 0x00, 0x16, 0x57, 0x60, 0x00, 0x60, 0x00, 0xfd, 0x5b, 0x50,
   0x60, 0x01, 0x60, 0x02, 0x81, 0x81, 0x01, 0x80, 0x82, 0x10, 0x15, 0x61,
   0x00, 0x2c, 0x57, 0x60, 0x00, 0x60, 0x00, 0xfd, 0x5b, 0x91, 0x50, 0x90,
   0x50, 0x60, 0x40, 0x52, 0x60, 0x20, 0x60, 0x40, 0xf3]

set_option maxRecDepth 1000000 in
/-- C3: refuted (code bug). `program_to_runtime_bytecode` (and the
runtime inside `program_to_deploy_bytecode`) assemble the IR exactly as
`lower_program` produced it — `harden` is never invoked on the pipeline
path — so for `def t() -> uint256: return 1 + 2` the emitted runtime is
the assembly of the un-hardened module, differs from the assembly of the
hardened module, and still contains the bare `Add` opcode; its only
`0xfd` byte is the dispatcher fallback, not a checked-add revert. -/
theorem c3_harden_not_in_pipeline :
    program_to_runtime_bytecode addOneTwoProgram =
      module_to_runtime (lower_program addOneTwoProgram) ∧
    program_to_runtime_bytecode addOneTwoProgram ≠
      module_to_runtime (harden (lower_program addOneTwoProgram)) ∧
    IrOp.add ∈ ((lower_program addOneTwoProgram).functions.map (fun f => f.ops)).flatten ∧
    (program_to_runtime_bytecode addOneTwoProgram).count 0xfd = 1 := by
  have h1 : program_to_runtime_bytecode addOneTwoProgram = addOneTwoRuntime := by rfl
  have h2 : module_to_runtime (harden (lower_program addOneTwoProgram)) =
      addOneTwoHardenedRuntime := by rfl
  refine ⟨rfl, ?_, by decide, ?_⟩
  · rw [h1, h2]
    decide
  · rw [h1]
    decide


/-- Unrolling of the `add_reentrancy_guard` function loop: each function
in order receives the fresh label `lc + i`. -/
theorem guardFunctions_eq (sb : List Nat) :
    ∀ (fs : List IrFunction) (lc : Nat),
      (guardFunctions sb fs lc).1 =
        (List.enumFrom lc fs).map
          (fun p => { p.2 with ops := guardEntry sb p.1 ++ guardBody sb p.2.ops })
  | [], _ => rfl
  | f :: rest, lc => by
    have ih := guardFunctions_eq sb rest (lc + 1)
    cases hg : guardFunctions sb rest (lc + 1) with
    | mk tail lc1 =>
      rw [hg] at ih
      dsimp only at ih
      simp only [guardFunctions, hg, List.enumFrom, List.map_cons]
      rw [ih]

/-- C5: confirmed. `add_reentrancy_guard(module, lock_slot)` leaves
`constructor_ops` unchanged, and rewrites the ops of the `i`-th function
to the entry sequence
`Push(slot) SLoad IsZero JumpI(ok); Push(0) Push(0) Revert; JumpDest(ok);
Push(1) Push(slot) SStore` (with the fresh label `ok = label_count + i`),
followed by the original ops with `Push(0) Push(slot) SStore` inserted
immediately before every `Return` and every `Stop` (`guardBody`); the
slot is pushed in its minimal big-endian encoding `slot_to_bytes`. -/
theorem c5_add_reentrancy_guard_spec (m : IrModule) (lock_slot : Nat) :
    (add_reentrancy_guard m lock_slot).constructor_ops = m.constructor_ops ∧
    (add_reentrancy_guard m lock_slot).functions =
      (List.enumFrom m.label_count m.functions).map
        (fun p =>
          let sb := slot_to_bytes lock_slot
          { p.2 with ops := guardEntry sb p.1 ++ guardBody sb p.2.ops }) := by
  exact ⟨rfl, guardFunctions_eq (slot_to_bytes lock_slot) m.functions m.label_count⟩


/-! ## Storage layout invariants (claim C7) -/

/-- Slot allocation of one `Const` item (first loop of `from_program`). -/
def constStep (layout : StorageLayout) (item : Item) : StorageLayout :=
  match item with
  | .constItem c =>
    let kind := match c.type_ with
      | .map _ _ => StorageKind.mapping
      | _ => StorageKind.value
    layout.alloc c.name kind
  | _ => layout

/-- Slot allocation of one `Struct` item's fields (second loop). -/
def structStep (layout : StorageLayout) (item : Item) : StorageLayout :=
  match item with
  | .structItem s =>
    s.fields.foldl
      (fun layout field =>
        let kind := match field.type_ with
          | .map _ _ => StorageKind.mapping
          | _ => StorageKind.value
        layout.alloc field.name kind)
      layout
  | _ => layout

/-- State-variable discovery over one function item (third loop). -/
def discoverStep (layout : StorageLayout) (item : Item) : StorageLayout :=
  match item with
  | .function f =>
    (discover_state f.body.statements (f.params.map (fun p => p.name)) layout).2
  | _ => layout

/-- The `Const` declarations of a program, in source order. -/
def constDecls (program : Program) : List ConstDecl :=
  program.items.filterMap (fun item =>
    match item with
    | .constItem c => some c
    | _ => none)

/-- The struct-field names declared by a program. -/
def structFieldNames (program : Program) : List String :=
  (program.items.map (fun item =>
    match item with
    | .structItem s => s.fields.map (fun f => f.name)
    | _ => [])).flatten

/-- The `Value`/`Mapping` kind `from_program` derives from a type. -/
def kindOfTy (ty : Ty) : StorageKind :=
  match ty with
  | .map _ _ => StorageKind.mapping
  | _ => StorageKind.value

/-- The layout invariant of the claim: slots are exactly the contiguous
range `[0, next_slot)` in insertion order and names are unique. -/
def LayoutInv (l : StorageLayout) : Prop :=
  l.slots.map (fun e => e.2.slot) = List.range l.next_slot ∧
  (l.slots.map Prod.fst).Nodup

theorem containsKey_iff (l : StorageLayout) (name : String) :
    l.containsKey name = true ↔ name ∈ l.slots.map Prod.fst := by
  simp [StorageLayout.containsKey, List.any_eq_true, List.mem_map]

theorem alloc_inv {l : StorageLayout} (name : String) (kind : StorageKind)
    (h : LayoutInv l) : LayoutInv (l.alloc name kind) := by
  unfold StorageLayout.alloc
  split
  · exact h
  · rename_i hc
    obtain ⟨hslots, hnodup⟩ := h
    refine ⟨?_, ?_⟩
    · simp only [List.map_append, hslots, List.map_cons, List.map_nil]
      exact (List.range_succ l.next_slot).symm
    · simp only [List.map_append, List.map_cons, List.map_nil]
      rw [List.nodup_append]
      refine ⟨hnodup, List.nodup_singleton name, ?_⟩
      intro a ha hb
      simp only [List.mem_singleton] at hb
      rw [hb] at ha
      have hn : ¬ (l.containsKey name = true) := by simpa using hc
      exact hn ((containsKey_iff l name).2 ha)

theorem alloc_get_mono {l : StorageLayout} {m : String} {s : StorageSlot}
    (name : String) (kind : StorageKind) (h : l.get m = some s) :
    (l.alloc name kind).get m = some s := by
  unfold StorageLayout.alloc
  split
  · exact h
  · unfold StorageLayout.get at h ⊢
    rcases hf : List.find? (fun p => decide (p.1 = m)) l.slots with _ | p
    · rw [hf] at h
      simp at h
    · rw [hf] at h
      rw [List.find?_append, hf]
      simpa [Option.or] using h

theorem alloc_get_none {l : StorageLayout} {b : String}
    (name : String) (kind : StorageKind) (hne : name ≠ b) (h : l.get b = none) :
    (l.alloc name kind).get b = none := by
  unfold StorageLayout.alloc
  split
  · exact h
  · unfold StorageLayout.get at h ⊢
    rcases hf : List.find? (fun p => decide (p.1 = b)) l.slots with _ | p
    · rw [List.find?_append, hf]
      simp [Option.or, List.find?, hne]
    · rw [hf] at h
      simp at h


/-- Any layout property preserved by non-builtin allocations is preserved
by `discover_target` (every allocation it performs is guarded by
`!is_builtin`). -/
def discover_target_stable (P : StorageLayout → Prop)
    (hP : ∀ (l : StorageLayout) (n : String) (k : StorageKind),
      is_builtin n = false → P l → P (l.alloc n k)) :
    ∀ (e : Expression) (locals : List String) (l : StorageLayout),
      P l → P (discover_target e locals l)
  | .identifier name, locals, l, h => by
    simp only [discover_target]
    split
    · rename_i hcond
      simp only [Bool.and_eq_true, Bool.not_eq_true'] at hcond
      exact hP l name _ hcond.2 h
    · exact h
  | .index base key, locals, l, h => by
    simp only [discover_target]
    cases base with
    | identifier name =>
      dsimp only
      split
      · rename_i hcond
        simp only [Bool.and_eq_true, Bool.not_eq_true'] at hcond
        exact hP l name _ hcond.2 h
      · exact h
    | _ => exact h
  | .member base f, locals, l, h => by
    simp only [discover_target]
    exact discover_target_stable P hP base locals l h
  | .number n, _, _, h => h
  | .hexNumber n, _, _, h => h
  | .stringLit s, _, _, h => h
  | .boolLit b, _, _, h => h
  | .bytesLit b, _, _, h => h
  | .structInit n fs, _, _, h => h
  | .binary op a b, _, _, h => h
  | .unary op a, _, _, h => h
  | .call c as, _, _, h => h

mutual

/-- Stability of `discover_expr_mappings` under non-builtin-alloc-stable
properties. -/
def discover_expr_stable (P : StorageLayout → Prop)
    (hP : ∀ (l : StorageLayout) (n : String) (k : StorageKind),
      is_builtin n = false → P l → P (l.alloc n k)) :
    ∀ (e : Expression) (locals : List String) (l : StorageLayout),
      P l → P (discover_expr_mappings e locals l)
  | .index base idx, locals, l, h => by
    simp only [discover_expr_mappings]
    refine discover_expr_stable P hP idx locals _ ?_
    cases base with
    | identifier name =>
      dsimp only
      split
      · rename_i hcond
        simp only [Bool.and_eq_true, Bool.not_eq_true'] at hcond
        exact hP l name _ hcond.2 h
      · exact h
    | _ => exact h
  | .binary op a b, locals, l, h => by
    simp only [discover_expr_mappings]
    exact discover_expr_stable P hP b locals _ (discover_expr_stable P hP a locals l h)
  | .unary op a, locals, l, h => by
    simp only [discover_expr_mappings]
    exact discover_expr_stable P hP a locals l h
  | .call callee args, locals, l, h => by
    simp only [discover_expr_mappings]
    exact discover_expr_list_stable P hP args locals _
      (discover_expr_stable P hP callee locals l h)
  | .member base f, locals, l, h => by
    simp only [discover_expr_mappings]
    exact discover_expr_stable P hP base locals l h
  | .number n, _, _, h => h
  | .hexNumber n, _, _, h => h
  | .stringLit s, _, _, h => h
  | .boolLit b, _, _, h => h
  | .bytesLit b, _, _, h => h
  | .structInit n fs, _, _, h => h
  | .identifier n, _, _, h => h

def discover_expr_list_stable (P : StorageLayout → Prop)
    (hP : ∀ (l : StorageLayout) (n : String) (k : StorageKind),
      is_builtin n = false → P l → P (l.alloc n k)) :
    ∀ (es : List Expression) (locals : List String) (l : StorageLayout),
      P l → P (discover_expr_list es locals l)
  | [], _, _, h => h
  | e :: rest, locals, l, h => by
    simp only [discover_expr_list]
    exact discover_expr_list_stable P hP rest locals _
      (discover_expr_stable P hP e locals l h)

end

mutual

/-- Stability of `discover_state` (on the layout component). -/
def discover_state_stable (P : StorageLayout → Prop)
    (hP : ∀ (l : StorageLayout) (n : String) (k : StorageKind),
      is_builtin n = false → P l → P (l.alloc n k)) :
    ∀ (stmts : List Statement) (locals : List String) (l : StorageLayout),
      P l → P (discover_state stmts locals l).2
  | [], _, _, h => h
  | stmt :: rest, locals, l, h => by
    have h1 := discover_stmt_stable P hP stmt locals l h
    cases hd : discover_stmt stmt locals l with
    | mk locals1 layout1 =>
      rw [hd] at h1
      simp only [discover_state, hd]
      exact discover_state_stable P hP rest locals1 layout1 h1

def discover_stmt_stable (P : StorageLayout → Prop)
    (hP : ∀ (l : StorageLayout) (n : String) (k : StorageKind),
      is_builtin n = false → P l → P (l.alloc n k)) :
    ∀ (stmt : Statement) (locals : List String) (l : StorageLayout),
      P l → P (discover_stmt stmt locals l).2
  | .letS lt, locals, l, h => by
    simp only [discover_stmt]
    cases lt.value with
    | some v => exact discover_expr_stable P hP v locals l h
    | none => exact h
  | .assign a, locals, l, h => by
    simp only [discover_stmt]
    exact discover_expr_stable P hP a.value locals _
      (discover_target_stable P hP a.target locals l h)
  | .ret (some e), locals, l, h => by
    simp only [discover_stmt]
    exact discover_expr_stable P hP e locals l h
  | .ret none, _, _, h => h
  | .require e, locals, l, h => by
    simp only [discover_stmt]
    exact discover_expr_stable P hP e locals l h
  | .expr e, locals, l, h => by
    simp only [discover_stmt]
    exact discover_expr_stable P hP e locals l h
  | .emit em, locals, l, h => by
    simp only [discover_stmt]
    exact discover_expr_list_stable P hP em.args locals l h
  | .ifS (.mk cond (.mk thenStmts bsp) elseBranch isp), locals, l, h => by
    have h1 := discover_expr_stable P hP cond locals l h
    have h2 := discover_state_stable P hP thenStmts locals _ h1
    cases ht : discover_state thenStmts locals (discover_expr_mappings cond locals l) with
    | mk locals2 layout2 =>
      rw [ht] at h2
      cases elseBranch with
      | some eb =>
        cases eb with
        | mk elseStmts esp =>
          simp only [discover_stmt, ht]
          exact discover_state_stable P hP elseStmts locals2 layout2 h2
      | none => simpa only [discover_stmt, ht] using h2
  | .forS hd (.mk bodyStmts bsp), locals, l, h => by
    have h1 := discover_expr_stable P hP hd.iterable locals l h
    have h2 := discover_state_stable P hP bodyStmts (locals ++ [hd.var]) _ h1
    cases hb : discover_state bodyStmts (locals ++ [hd.var])
        (discover_expr_mappings hd.iterable locals l) with
    | mk locals2 layout2 =>
      rw [hb] at h2
      simpa only [discover_stmt, hb] using h2
  | .whileS cond (.mk bodyStmts bsp) wsp, locals, l, h => by
    have h1 := discover_expr_stable P hP cond locals l h
    simp only [discover_stmt]
    exact discover_state_stable P hP bodyStmts locals _ h1

end


theorem from_program_eq (p : Program) :
    StorageLayout.from_program p =
      p.items.foldl discoverStep
        (p.items.foldl structStep
          (p.items.foldl constStep { slots := [], next_slot := 0 })) := rfl

theorem foldl_preserves {α : Type} (step : StorageLayout → α → StorageLayout)
    (P : StorageLayout → Prop) (hstep : ∀ l a, P l → P (step l a)) :
    ∀ (xs : List α) (l : StorageLayout), P l → P (xs.foldl step l)
  | [], _, h => h
  | x :: rest, l, h =>
    foldl_preserves step P hstep rest (step l x) (hstep l x h)

theorem find?_eq_none_of_not_contains {l : StorageLayout} {name : String}
    (h : l.containsKey name = false) :
    List.find? (fun p => decide (p.1 = name)) l.slots = none := by
  rw [List.find?_eq_none]
  intro x hx
  simp only [StorageLayout.containsKey, List.any_eq_false] at h
  simpa using h x hx

theorem alloc_get_self {l : StorageLayout} {name : String} (kind : StorageKind)
    (h : l.containsKey name = false) :
    (l.alloc name kind).get name = some ⟨l.next_slot, kind⟩ := by
  unfold StorageLayout.alloc
  rw [if_neg (by simp [h])]
  unfold StorageLayout.get
  rw [List.find?_append, find?_eq_none_of_not_contains h]
  simp [Option.or, List.find?]

theorem containsKey_alloc_false {l : StorageLayout} {m : String}
    (name : String) (kind : StorageKind) (hne : name ≠ m)
    (h : l.containsKey m = false) :
    (l.alloc name kind).containsKey m = false := by
  unfold StorageLayout.alloc
  split
  · exact h
  · simp only [StorageLayout.containsKey, List.any_append, List.any_cons, List.any_nil,
      Bool.or_eq_false_iff] at h ⊢
    exact ⟨h, by simp [hne]⟩

theorem alloc_next_slot_of_fresh {l : StorageLayout} {name : String}
    (kind : StorageKind) (h : l.containsKey name = false) :
    (l.alloc name kind).next_slot = l.next_slot + 1 := by
  unfold StorageLayout.alloc
  rw [if_neg (by simp [h])]

/-- `Const` slot assignment in source order: starting from a layout that
contains none of the const names, the `i`-th const (distinct names)
receives slot `next_slot + i`, and this binding survives the rest of the
const loop. -/
theorem const_fold_get :
    ∀ (items : List Item) (l : StorageLayout),
      ((items.filterMap (fun item =>
          match item with
          | .constItem c => some c
          | _ => none)).map (fun c => c.name)).Nodup →
      (∀ c, (Item.constItem c) ∈ items → l.containsKey c.name = false) →
      ∀ (i : Nat) (c : ConstDecl),
        (items.filterMap (fun item =>
          match item with
          | .constItem c => some c
          | _ => none)).get? i = some c →
        (items.foldl constStep l).get c.name =
          some ⟨l.next_slot + i, kindOfTy c.type_⟩
  | [], _, _, _, i, c, hget => by simp at hget
  | .constItem c0 :: rest, l, hnodup, hfresh, i, c, hget => by
    simp only [List.filterMap_cons, List.map_cons, List.nodup_cons] at hnodup
    simp only [List.filterMap_cons] at hget
    have hfresh0 : l.containsKey c0.name = false := hfresh c0 (by simp)
    simp only [List.foldl_cons]
    have hstep : constStep l (.constItem c0) = l.alloc c0.name (kindOfTy c0.type_) := rfl
    rw [hstep]
    cases i with
    | zero =>
      have hc : c0 = c := by
        simpa using hget
      subst hc
      have hself := alloc_get_self (l := l) (kindOfTy c0.type_) hfresh0
      have hkeep := foldl_preserves constStep
        (fun ly => ly.get c0.name = some ⟨l.next_slot, kindOfTy c0.type_⟩)
        (fun ly item hly => by
          cases item with
          | constItem c1 =>
            have he : constStep ly (.constItem c1) = ly.alloc c1.name (kindOfTy c1.type_) := rfl
            rw [he]
            exact alloc_get_mono _ _ hly
          | structItem s => exact hly
          | function f => exact hly)
        rest _ hself
      simpa using hkeep
    | succ j =>
      have hget' : (rest.filterMap (fun item =>
          match item with
          | .constItem c => some c
          | _ => none)).get? j = some c := by
        simpa using hget
      have hfresh' : ∀ c1, (Item.constItem c1) ∈ rest →
          (l.alloc c0.name (kindOfTy c0.type_)).containsKey c1.name = false := by
        intro c1 hc1
        refine containsKey_alloc_false _ _ ?_ (hfresh c1 (by simp [hc1]))
        intro heq
        apply hnodup.1
        rw [heq]
        simp only [List.mem_map]
        refine ⟨c1, ?_, rfl⟩
        simp only [List.mem_filterMap]
        exact ⟨.constItem c1, hc1, rfl⟩
      have ih := const_fold_get rest (l.alloc c0.name (kindOfTy c0.type_))
        hnodup.2 hfresh' j c hget'
      rw [alloc_next_slot_of_fresh _ hfresh0] at ih
      have harith : l.next_slot + 1 + j = l.next_slot + (j + 1) := by omega
      rw [harith] at ih
      exact ih
  | .structItem s :: rest, l, hnodup, hfresh, i, c, hget => by
    simp only [List.filterMap_cons] at hnodup hget
    simp only [List.foldl_cons]
    exact const_fold_get rest l hnodup (fun c1 hc1 => hfresh c1 (by simp [hc1])) i c hget
  | .function f :: rest, l, hnodup, hfresh, i, c, hget => by
    simp only [List.filterMap_cons] at hnodup hget
    simp only [List.foldl_cons]
    exact const_fold_get rest l hnodup (fun c1 hc1 => hfresh c1 (by simp [hc1])) i c hget


theorem foldl_preserves_mem {α : Type} (step : StorageLayout → α → StorageLayout)
    (P : StorageLayout → Prop) :
    ∀ (xs : List α) (l : StorageLayout),
      (∀ (l' : StorageLayout) (a : α), a ∈ xs → P l' → P (step l' a)) →
      P l → P (xs.foldl step l)
  | [], _, _, h => h
  | x :: rest, l, hstep, h =>
    foldl_preserves_mem step P rest (step l x)
      (fun l' a ha => hstep l' a (by simp [ha]))
      (hstep l x (by simp) h)

/-- C7 (amended): `from_program` assigns distinct-named `Const` items
slots `[0, k)` in source order; the used slots are always exactly the
contiguous range `[0, slot_count)` in insertion order with each name
appearing exactly once and `slot_count` equal to the number of entries;
and a builtin name (`msg`, `block`, `tx`, `self`) holds a slot only when
a `Const` item or a `Struct` field declares it — body discovery alone
never allocates one. -/
theorem c7_storage_layout_amended (p : Program) :
    ( ((constDecls p).map (fun c => c.name)).Nodup →
      ∀ (i : Nat) (c : ConstDecl), (constDecls p).get? i = some c →
        (StorageLayout.from_program p).get c.name = some ⟨i, kindOfTy c.type_⟩ ) ∧
    ((StorageLayout.from_program p).slots.map (fun e => e.2.slot) =
       List.range (StorageLayout.from_program p).next_slot) ∧
    ((StorageLayout.from_program p).slots.map Prod.fst).Nodup ∧
    (StorageLayout.from_program p).slot_count =
      (StorageLayout.from_program p).slots.length ∧
    (∀ b : String, is_builtin b = true →
      (∀ c, (Item.constItem c) ∈ p.items → c.name ≠ b) →
      (∀ s f, (Item.structItem s) ∈ p.items → f ∈ s.fields → f.name ≠ b) →
      (StorageLayout.from_program p).get b = none) := by
  have hallocInv : ∀ (l : StorageLayout) (n : String) (k : StorageKind),
      is_builtin n = false → LayoutInv l → LayoutInv (l.alloc n k) :=
    fun l n k _ h => alloc_inv n k h
  have hConstInv : ∀ (l : StorageLayout) (item : Item),
      LayoutInv l → LayoutInv (constStep l item) := by
    intro l item h
    cases item with
    | constItem c => exact alloc_inv _ _ h
    | structItem s => exact h
    | function f => exact h
  have hStructInv : ∀ (l : StorageLayout) (item : Item),
      LayoutInv l → LayoutInv (structStep l item) := by
    intro l item h
    cases item with
    | structItem s =>
      exact foldl_preserves _ LayoutInv (fun l' f h' => alloc_inv _ _ h') s.fields l h
    | constItem c => exact h
    | function f => exact h
  have hDiscInv : ∀ (l : StorageLayout) (item : Item),
      LayoutInv l → LayoutInv (discoverStep l item) := by
    intro l item h
    cases item with
    | function f => exact discover_state_stable LayoutInv hallocInv _ _ l h
    | constItem c => exact h
    | structItem s => exact h
  have hInv : LayoutInv (StorageLayout.from_program p) := by
    rw [from_program_eq]
    refine foldl_preserves discoverStep LayoutInv hDiscInv p.items _ ?_
    refine foldl_preserves structStep LayoutInv hStructInv p.items _ ?_
    refine foldl_preserves constStep LayoutInv hConstInv p.items _ ?_
    exact ⟨rfl, List.nodup_nil⟩
  refine ⟨?_, hInv.1, hInv.2, ?_, ?_⟩
  · -- const ordering
    intro hnodup i c hget
    rw [from_program_eq]
    have h1 := const_fold_get p.items { slots := [], next_slot := 0 }
      hnodup (fun c1 _ => rfl) i c hget
    simp only [Nat.zero_add] at h1
    have hmono : ∀ (l : StorageLayout) (n : String) (k : StorageKind),
        is_builtin n = false →
        (fun ly => ly.get c.name = some ⟨i, kindOfTy c.type_⟩) l →
        (fun ly => ly.get c.name = some ⟨i, kindOfTy c.type_⟩) (l.alloc n k) :=
      fun l n k _ h => alloc_get_mono n k h
    refine foldl_preserves discoverStep
      (fun ly => ly.get c.name = some ⟨i, kindOfTy c.type_⟩)
      (fun l item h => by
        cases item with
        | function f => exact discover_state_stable _ hmono _ _ l h
        | constItem c1 => exact h
        | structItem s => exact h) p.items _ ?_
    refine foldl_preserves structStep
      (fun ly => ly.get c.name = some ⟨i, kindOfTy c.type_⟩)
      (fun l item h => by
        cases item with
        | structItem s =>
          simp only [structStep]
          exact foldl_preserves _
            (fun ly => ly.get c.name = some ⟨i, kindOfTy c.type_⟩)
            (fun l' f h' => alloc_get_mono _ _ h') s.fields l h
        | constItem c1 => exact h
        | function f => exact h) p.items _ ?_
    exact h1
  · -- slot_count = number of entries
    have := congrArg List.length hInv.1
    simp only [List.length_map, List.length_range] at this
    exact this.symm
  · -- builtins only via declaration
    intro b hb hconsts hstructs
    rw [from_program_eq]
    have hPnone : ∀ (l : StorageLayout) (n : String) (k : StorageKind),
        is_builtin n = false →
        (fun ly => ly.get b = none) l → (fun ly => ly.get b = none) (l.alloc n k) := by
      intro l n k hn h
      refine alloc_get_none n k ?_ h
      intro heq
      rw [heq] at hn
      rw [hn] at hb
      exact Bool.false_ne_true hb
    refine foldl_preserves_mem discoverStep (fun ly => ly.get b = none) p.items _
      (fun l item _ h => by
        cases item with
        | function f => exact discover_state_stable _ hPnone _ _ l h
        | constItem c1 => exact h
        | structItem s => exact h) ?_
    refine foldl_preserves_mem structStep (fun ly => ly.get b = none) p.items _
      (fun l item hmem h => by
        cases item with
        | structItem s =>
          simp only [structStep]
          exact foldl_preserves_mem _ (fun ly => ly.get b = none) s.fields l
            (fun l' f hf h' => alloc_get_none _ _ (hstructs s f hmem hf) h') h
        | constItem c1 => exact h
        | function f => exact h) ?_
    refine foldl_preserves_mem constStep (fun ly => ly.get b = none) p.items _
      (fun l item hmem h => by
        cases item with
        | constItem c1 => exact alloc_get_none _ _ (hconsts c1 hmem) h
        | structItem s => exact h
        | function f => exact h) ?_
    rfl

/-- Concrete program for the C7 witness: `const a: uint256 = 1` followed
by `def t():\n    x = 2\n` (one const, one discovered state variable). -/
def c7WitnessProgram : Program :=
  ⟨[.constItem ⟨"a", .uint256, .number 1, sp0⟩,
    .function ⟨"t", [], none,
      .mk [.assign ⟨.identifier "x", .number 2, sp0⟩] sp0, sp0⟩], sp0⟩

/-- Witness for C7: instantiating the amended theorem at
`c7WitnessProgram`, the const `a` holds slot 0, the layout is the
contiguous two-entry range, and the builtin `msg` holds no slot. -/
theorem c7_storage_layout_amended_witness :
    (StorageLayout.from_program c7WitnessProgram).get ("a") = some ⟨0, .value⟩ ∧
    (StorageLayout.from_program c7WitnessProgram).slots.map (fun e => e.2.slot) =
      List.range (StorageLayout.from_program c7WitnessProgram).next_slot ∧
    (StorageLayout.from_program c7WitnessProgram).slot_count =
      (StorageLayout.from_program c7WitnessProgram).slots.length ∧
    (StorageLayout.from_program c7WitnessProgram).get ("msg") = none := by
  obtain ⟨h1, h2, _, h4, h5⟩ := c7_storage_layout_amended c7WitnessProgram
  refine ⟨?_, h2, h4, ?_⟩
  · have := h1 (by decide) 0 ⟨"a", .uint256, .number 1, sp0⟩ rfl
    simpa [kindOfTy] using this
  · refine h5 "msg" (by decide) ?_ ?_
    · intro c hc
      simp only [c7WitnessProgram, List.mem_cons] at hc
      rcases hc with h | h | h
      · cases h
        decide
      · cases h
      · simp at h
    · intro s f hs _
      simp only [c7WitnessProgram, List.mem_cons] at hs
      rcases hs with h | h | h
      · cases h
      · cases h
      · simp at h


/-! ## Deploy prelude fixed point (claim C9) -/

/-- Fuel-insensitivity of the byte-expansion loop: any fuel at least `n`
computes the canonical big-endian bytes. -/
theorem toBytesBEAux_fuel (n : Nat) : ∀ (f : Nat), n ≤ f → toBytesBEAux f n = toBytesBE n := by
  induction n using Nat.strong_induction_on with
  | _ n ih =>
    intro f hf
    match n, f with
    | 0, 0 => rfl
    | 0, f + 1 => simp [toBytesBEAux, toBytesBE]
    | n + 1, f + 1 =>
      have hdiv : (n + 1) / 256 < n + 1 := Nat.div_lt_self (by omega) (by omega)
      have h1 : toBytesBEAux f ((n + 1) / 256) = toBytesBE ((n + 1) / 256) :=
        ih _ hdiv f (by omega)
      have h2 : toBytesBEAux n ((n + 1) / 256) = toBytesBE ((n + 1) / 256) :=
        ih _ hdiv n (by omega)
      simp only [toBytesBEAux, toBytesBE]
      rw [if_neg (by omega), if_neg (by omega)]
      rw [h1]
      conv_rhs => rw [show toBytesBEAux n ((n + 1) / 256) = toBytesBE ((n + 1) / 256) from h2]

theorem toBytesBE_pos (n : Nat) (h : n ≠ 0) :
    toBytesBE n = toBytesBE (n / 256) ++ [n % 256] := by
  cases n with
  | zero => omega
  | succ m =>
    show toBytesBEAux (m + 1) (m + 1) = _
    simp only [toBytesBEAux]
    rw [if_neg (by omega)]
    rw [toBytesBEAux_fuel _ m (by
      have := Nat.div_lt_self (show 0 < m + 1 by omega) (show 1 < 256 by omega)
      omega)]

/-- Number of base-256 digits. -/
def blen (n : Nat) : Nat := (toBytesBE n).length

theorem blen_le_iff (n : Nat) : ∀ (k : Nat), blen n ≤ k ↔ n < 256 ^ k := by
  induction n using Nat.strong_induction_on with
  | _ n ih =>
    intro k
    by_cases hn : n = 0
    · subst hn
      have hb0 : blen 0 = 0 := rfl
      rw [hb0]
      constructor
      · intro _
        exact Nat.pos_pow_of_pos k (by omega)
      · intro _
        exact Nat.zero_le k
    · rw [show blen n = blen (n / 256) + 1 by
        simp [blen, toBytesBE_pos n hn]]
      cases k with
      | zero =>
        simp only [Nat.pow_zero]
        omega
      | succ k =>
        have hdiv : n / 256 < n := Nat.div_lt_self (by omega) (by omega)
        rw [Nat.add_le_add_iff_right, ih _ hdiv k, Nat.pow_succ]
        rw [Nat.div_lt_iff_lt_mul (by omega : 0 < 256)]

theorem blen_mono {x y : Nat} (h : x ≤ y) : blen x ≤ blen y := by
  rw [blen_le_iff]
  have hy : y < 256 ^ blen y := (blen_le_iff y (blen y)).1 (le_refl _)
  omega

theorem blen_lower {y : Nat} (hy : y ≠ 0) : 256 ^ (blen y - 1) ≤ y := by
  by_contra hlt
  push_neg at hlt
  have h1 : blen y ≤ blen y - 1 := (blen_le_iff y (blen y - 1)).2 hlt
  have h2 : 1 ≤ blen y := by
    by_contra h0
    push_neg at h0
    have : blen y ≤ 0 := by omega
    have := (blen_le_iff y 0).1 this
    simp at this
    omega
  omega

/-- Length of the `push_usize` encoding. -/
def plen (v : Nat) : Nat := (push_usize v).length

theorem plen_eq (v : Nat) : plen v = if v = 0 then 2 else 1 + blen v := by
  unfold plen push_usize blen
  split
  · rfl
  · simp
    omega

theorem blen_pos {v : Nat} (hv : v ≠ 0) : 1 ≤ blen v := by
  by_contra h0
  push_neg at h0
  have : blen v ≤ 0 := by omega
  have := (blen_le_iff v 0).1 this
  simp at this
  omega

theorem plen_lb (v : Nat) : 2 ≤ plen v := by
  rw [plen_eq]
  split
  · omega
  · rename_i hv
    have := blen_pos hv
    omega

theorem plen_mono {x y : Nat} (h : x ≤ y) : plen x ≤ plen y := by
  rw [plen_eq, plen_eq]
  split
  · split
    · omega
    · rename_i hy
      have := blen_pos hy
      omega
  · rename_i hx
    rw [if_neg (by omega)]
    have := blen_mono h
    omega

theorem plen_ub {v : Nat} (h : v < 256 ^ 9) : plen v ≤ 10 := by
  rw [plen_eq]
  split
  · omega
  · have : blen v ≤ 9 := (blen_le_iff v 9).2 h
    omega

/-- At most one `blen` boundary fits in a window of width 42: two strict
increases of `plen` along `x ≤ y ≤ z` force `z` past `256` times a power
bounding `x`, contradicting `z ≤ x + 42`. -/
theorem plen_single_crossing {x y z : Nat} (hxy : x ≤ y) (hyz : y ≤ z)
    (h1 : plen x < plen y) (h2 : plen y < plen z) (hw : z ≤ x + 42) : False := by
  have hy0 : y ≠ 0 := by
    intro h
    subst h
    have : x = 0 := by omega
    subst this
    omega
  have hz0 : z ≠ 0 := by
    intro h
    subst h
    omega
  by_cases hx0 : x = 0
  · subst hx0
    rw [plen_eq, plen_eq] at h1
    rw [if_pos rfl, if_neg hy0] at h1
    have hby : 2 ≤ blen y := by omega
    have : 256 ^ 1 ≤ 256 ^ (blen y - 1) := Nat.pow_le_pow_right (by omega) (by omega)
    have := blen_lower hy0
    omega
  · rw [plen_eq, plen_eq] at h1 h2
    rw [if_neg hx0, if_neg hy0] at h1
    rw [if_neg hy0, if_neg hz0] at h2
    have hbxy : blen x < blen y := by omega
    have hbyz : blen y < blen z := by omega
    have hxM : x < 256 ^ blen x := (blen_le_iff x (blen x)).1 (le_refl _)
    have hzlow : 256 ^ (blen z - 1) ≤ z := blen_lower hz0
    have hpow : 256 ^ (blen x + 1) ≤ 256 ^ (blen z - 1) :=
      Nat.pow_le_pow_right (by omega) (by omega)
    have hMx : 256 ^ 1 ≤ 256 ^ blen x := Nat.pow_le_pow_right (by omega) (blen_pos hx0)
    have h256 : 256 ^ (blen x + 1) = 256 ^ blen x * 256 := by
      rw [Nat.pow_succ]
    omega


theorem mkPrelude_length (c r L : Nat) :
    (mkPrelude c r L).length = 2 * plen r + plen (c + L) + 6 := by
  simp only [mkPrelude, List.length_append, List.length_cons, List.length_nil]
  have h0 : (push_usize 0).length = 2 := rfl
  unfold plen
  rw [h0]
  omega

theorem build_deploy_loop_return (ctor rt : List Nat) (fuel L : Nat)
    (hL : (mkPrelude ctor.length rt.length L).length = L) :
    build_deploy_loop ctor rt (fuel + 1) L =
      ctor ++ mkPrelude ctor.length rt.length L ++ rt := by
  simp only [build_deploy_loop]
  rw [if_pos hL]

theorem build_deploy_loop_step (ctor rt : List Nat) (fuel L : Nat)
    (hL : (mkPrelude ctor.length rt.length L).length ≠ L) :
    build_deploy_loop ctor rt (fuel + 1) L =
      build_deploy_loop ctor rt fuel (mkPrelude ctor.length rt.length L).length := by
  simp only [build_deploy_loop]
  rw [if_neg hL]

/-- The `build_deploy` loop reaches its fixed point within the 8 bounded
iterations whenever the two input lengths fit a `u64` (as Rust `usize`
lengths do): the emitted prelude's length equals the estimate that was
encoded into it. -/
theorem build_deploy_fixed (ctor rt : List Nat)
    (hc : ctor.length < 2 ^ 64) (hr : rt.length < 2 ^ 64) :
    ∃ L, build_deploy ctor rt = ctor ++ mkPrelude ctor.length rt.length L ++ rt ∧
         (mkPrelude ctor.length rt.length L).length = L := by
  have hpow : (2 : Nat) ^ 64 + 64 < 256 ^ 9 := by norm_num
  have hplr : plen rt.length ≤ 10 := plen_ub (by omega)
  have hplc : plen ctor.length ≤ 10 := plen_ub (by omega)
  have hplrlb : 2 ≤ plen rt.length := plen_lb rt.length
  have hplclb : 2 ≤ plen ctor.length := plen_lb ctor.length
  have e1 : (mkPrelude ctor.length rt.length 0).length =
      2 * plen rt.length + plen ctor.length + 6 := by
    simp [mkPrelude_length]
  generalize hL1 : (mkPrelude ctor.length rt.length 0).length = l1 at e1
  have hl1b : 12 ≤ l1 ∧ l1 ≤ 36 := by omega
  have hmono1 : plen ctor.length ≤ plen (ctor.length + l1) :=
    plen_mono (by omega)
  have hpl1ub : plen (ctor.length + l1) ≤ 10 := plen_ub (by omega)
  have e2 : (mkPrelude ctor.length rt.length l1).length =
      2 * plen rt.length + plen (ctor.length + l1) + 6 := mkPrelude_length _ _ _
  generalize hL2 : (mkPrelude ctor.length rt.length l1).length = l2 at e2
  have hl2b : l1 ≤ l2 ∧ l2 ≤ 36 := by omega
  have hstart : build_deploy ctor rt = build_deploy_loop ctor rt 7 l1 := by
    unfold build_deploy
    rw [build_deploy_loop_step ctor rt 7 0 (by omega), hL1]
  by_cases h12 : l2 = l1
  · refine ⟨l1, ?_, by rw [hL2, h12]⟩
    rw [hstart, build_deploy_loop_return ctor rt 6 l1 (by rw [hL2, h12])]
  · have hmono2 : plen (ctor.length + l1) ≤ plen (ctor.length + l2) :=
      plen_mono (by omega)
    have hpl2ub : plen (ctor.length + l2) ≤ 10 := plen_ub (by omega)
    have e3 : (mkPrelude ctor.length rt.length l2).length =
        2 * plen rt.length + plen (ctor.length + l2) + 6 := mkPrelude_length _ _ _
    have h23 : (mkPrelude ctor.length rt.length l2).length = l2 := by
      by_contra hne
      have hcross1 : plen ctor.length < plen (ctor.length + l1) := by omega
      have hcross2 : plen (ctor.length + l1) < plen (ctor.length + l2) := by omega
      exact plen_single_crossing
        (show ctor.length ≤ ctor.length + l1 by omega)
        (show ctor.length + l1 ≤ ctor.length + l2 by omega)
        hcross1 hcross2
        (show ctor.length + l2 ≤ ctor.length + 42 by omega)
    refine ⟨l2, ?_, h23⟩
    rw [hstart, build_deploy_loop_step ctor rt 6 l1 (by rw [hL2]; exact h12), hL2,
      build_deploy_loop_return ctor rt 5 l2 h23]

/-- The constructor bytes assembled by `program_to_deploy_bytecode`
(`Return`/`Stop` ops skipped). -/
def deploy_ctor_bytes (program : Program) : List Nat :=
  ((lower_program program).constructor_ops.foldl
    (fun em op =>
      match op with
      | .ret => em
      | .stop => em
      | _ => em.emit_op op)
    Emitter.new).into_bytes

theorem program_to_deploy_bytecode_eq (program : Program) :
    program_to_deploy_bytecode program =
      build_deploy (deploy_ctor_bytes program) (program_to_runtime_bytecode program) := rfl

set_option maxRecDepth 1000000 in
/-- C9: confirmed. Whenever the two assembled byte lists fit a `u64` (as
Rust `Vec` lengths always do), `program_to_deploy_bytecode` emits the
assembled constructor bytes, then a CODECOPY push-prelude whose encoded
source offset is exactly `len(constructor) + len(prelude)` — the fixed
point the 8-bounded iteration reaches — then the runtime bytes; hence
the deploy bytecode ends with the exact runtime byte sequence and
contains the CODECOPY opcode `0x39`. -/
theorem c9_deploy_layout (p : Program)
    (hc : (deploy_ctor_bytes p).length < 2 ^ 64)
    (hr : (program_to_runtime_bytecode p).length < 2 ^ 64) :
    ∃ prelude : List Nat,
      program_to_deploy_bytecode p =
        deploy_ctor_bytes p ++ prelude ++ program_to_runtime_bytecode p ∧
      prelude =
        push_usize (program_to_runtime_bytecode p).length ++
        push_usize ((deploy_ctor_bytes p).length + prelude.length) ++
        push_usize 0 ++ [0x39] ++
        push_usize (program_to_runtime_bytecode p).length ++
        push_usize 0 ++ [0xf3] ∧
      (0x39 : Nat) ∈ program_to_deploy_bytecode p ∧
      ∃ pre, program_to_deploy_bytecode p = pre ++ program_to_runtime_bytecode p := by
  obtain ⟨L, hbd, hfix⟩ := build_deploy_fixed (deploy_ctor_bytes p)
    (program_to_runtime_bytecode p) hc hr
  rw [program_to_deploy_bytecode_eq]
  refine ⟨mkPrelude (deploy_ctor_bytes p).length (program_to_runtime_bytecode p).length L,
    hbd, ?_, ?_, ?_⟩
  · rw [hfix]
    rfl
  · rw [hbd]
    simp [mkPrelude]
  · exact ⟨_, hbd⟩

set_option maxRecDepth 1000000 in
/-- Witness for C9: both length hypotheses hold for the concrete program
`def t() -> uint256: return 1 + 2`, and the deploy layout obtains there. -/
theorem c9_deploy_layout_witness :
    ((deploy_ctor_bytes addOneTwoProgram).length < 2 ^ 64 ∧
      (program_to_runtime_bytecode addOneTwoProgram).length < 2 ^ 64) ∧
    (∃ prelude : List Nat,
      program_to_deploy_bytecode addOneTwoProgram =
        deploy_ctor_bytes addOneTwoProgram ++ prelude ++
          program_to_runtime_bytecode addOneTwoProgram ∧
      prelude =
        push_usize (program_to_runtime_bytecode addOneTwoProgram).length ++
        push_usize ((deploy_ctor_bytes addOneTwoProgram).length + prelude.length) ++
        push_usize 0 ++ [0x39] ++
        push_usize (program_to_runtime_bytecode addOneTwoProgram).length ++
        push_usize 0 ++ [0xf3] ∧
      (0x39 : Nat) ∈ program_to_deploy_bytecode addOneTwoProgram ∧
      ∃ pre, program_to_deploy_bytecode addOneTwoProgram =
        pre ++ program_to_runtime_bytecode addOneTwoProgram) :=
  ⟨⟨by decide, by decide⟩,
    c9_deploy_layout addOneTwoProgram (by decide) (by decide)⟩


/-! ## Lexer (`lexer.rs`)

The inner `logos`-generated lexer is embedded as a character-level
maximal-munch tokenizer over `List Char` (longest match wins; on a length
tie the explicitly prioritized token wins, which among these patterns
only affects `<`/`>` versus the never-produced `LAngle`/`RAngle`).
`Comment` and the `[ \t\f]+` skip pattern are consumed silently like
`logos(skip …)` does. On input no pattern matches, the stream yields an
error item spanning one character, and the wrapper classifies it with
`analyze_error` exactly as `lexer.rs` does. -/

inductive Token where
  | def_ | if_ | else_ | elif_ | for_ | while_ | ret | let_ | mut | const
  | structKw | require | event | emit | in_ | true_ | false_
  | uint256 | uint8 | int256 | boolKw | address | bytesKw | stringKw
  | plus | minus | multiply | divide | modulo | power
  | assign | plusAssign | minusAssign | multiplyAssign | divideAssign
  | equal | notEqual | lessEqual | greaterEqual | less | greater
  | andKw | orKw | notKw
  | lparen | rparen | lbracket | rbracket | lbrace | rbrace
  | comma | colon | dot | arrow
  | langle | rangle
  | number (n : Nat)
  | stringLit (s : String)
  | bytesLit (b : List Nat)
  | hexNumber (n : Nat)
  | identifier (s : String)
  | newline
  | indent
  | dedent
  | eofTok
  | comment
  | whitespaceOnlyLine
  | indentationError
  | mixedIndentationError
  | invalidChar (c : Char)
  | malformedNumber (s : String)
  | unterminatedString
  | invalidHexDigit (s : String)
  | invalidBytesLiteral (s : String)
  | errorTok
  deriving Repr

def backslash : Char := Char.ofNat 92
def squote : Char := Char.ofNat 39
def backtickChar : Char := Char.ofNat 96
def lbraceChar : Char := Char.ofNat 123
def rbraceChar : Char := Char.ofNat 125

def isIdentStart (c : Char) : Bool := c.isAlpha || c = '_'
def isIdentChar (c : Char) : Bool := c.isAlpha || c.isDigit || c = '_'
def isWsf (c : Char) : Bool := c = ' ' || c = '\t' || c = '\x0c'
def isWs (c : Char) : Bool := c = ' ' || c = '\t'
def isHexDigit (c : Char) : Bool := c.isDigit || ('a' ≤ c && c ≤ 'f') || ('A' ≤ c && c ≤ 'F')

/-- Length of the maximal prefix satisfying `pred`. -/
def runLen (pred : Char → Bool) : List Char → Nat
  | [] => 0
  | c :: rest => if pred c then runLen pred rest + 1 else 0

/-- First index `≥ i` whose character fails `pred` (or the length). -/
def runEnd (pred : Char → Bool) (src : List Char) (i : Nat) : Nat :=
  i + runLen pred (src.drop i)

def sliceChars (src : List Char) (s e : Nat) : List Char :=
  (src.drop s).take (e - s)

def hexDigitVal (c : Char) : Nat :=
  if c.isDigit then c.toNat - 48
  else if 'a' ≤ c && c ≤ 'f' then c.toNat - 87
  else if 'A' ≤ c && c ≤ 'F' then c.toNat - 55
  else 0

def decimalVal (cs : List Char) : Nat :=
  cs.foldl (fun acc c => acc * 10 + (c.toNat - 48)) 0

def hexVal (cs : List Char) : Nat :=
  cs.foldl (fun acc c => acc * 16 + hexDigitVal c) 0

/-- Decode the inside of a `b'…'` literal: complete hex-digit pairs
(`chunks(2)`, a trailing odd digit is dropped). -/
def decodeBytePairs : List Char → List Nat
  | c1 :: c2 :: rest => (hexDigitVal c1 * 16 + hexDigitVal c2) :: decodeBytePairs rest
  | _ => []

/-- Keyword table (exact `#token` strings beat the identifier regex on a
length tie). -/
def kwLookup (s : String) : Token :=
  if s = "def" then .def_
  else if s = "if" then .if_
  else if s = "else" then .else_
  else if s = "elif" then .elif_
  else if s = "for" then .for_
  else if s = "while" then .while_
  else if s = "return" then .ret
  else if s = "let" then .let_
  else if s = "mut" then .mut
  else if s = "const" then .const
  else if s = "struct" then .structKw
  else if s = "require" then .require
  else if s = "event" then .event
  else if s = "emit" then .emit
  else if s = "in" then .in_
  else if s = "true" then .true_
  else if s = "false" then .false_
  else if s = "uint256" then .uint256
  else if s = "uint8" then .uint8
  else if s = "int256" then .int256
  else if s = "bool" then .boolKw
  else if s = "address" then .address
  else if s = "bytes" then .bytesKw
  else if s = "string" then .stringKw
  else if s = "and" then .andKw
  else if s = "or" then .orKw
  else if s = "not" then .notKw
  else .identifier s

def classifyWord (cs : List Char) : Token :=
  kwLookup (String.mk cs)

/-- Scan the tail of a string literal (`"([^"\\]|\\.)*"`): position just
after a consumed prefix, returns the position right after the closing
quote when the regex matches. `\\.`'s dot does not match a newline; the
negated class does. -/
def scanStringTail (src : List Char) : Nat → Nat → Option Nat
  | 0, _ => none
  | fuel + 1, i =>
    match src.get? i with
    | none => none
    | some c =>
      if c = '"' then some (i + 1)
      else if c = backslash then
        match src.get? (i + 1) with
        | none => none
        | some c2 =>
          if c2 = '\n' then none
          else scanStringTail src fuel (i + 2)
      else scanStringTail src fuel (i + 1)

inductive InnerItem where
  | good (t : Token)
  | errItem
  deriving Repr

/-- One step of the inner `logos` lexer from position `p`: the next
non-skipped item with its span `[start, stop)`, or `none` at EOF. -/
def innerNextAux (src : List Char) : Nat → Nat → Option (InnerItem × Nat × Nat)
  | 0, _ => none
  | fuel + 1, p =>
    match src.get? p with
    | none => none
    | some c =>
      if c = '\n' then some (.good .newline, p, p + 1)
      else if isWsf c then
        let wf := runEnd isWsf src p
        let wt := runEnd isWs src p
        if wt = wf && src.get? wt = some '\n' then
          some (.good .whitespaceOnlyLine, p, wt + 1)
        else innerNextAux src fuel wf
      else if c = '#' then
        innerNextAux src fuel (runEnd (fun ch => !(ch = '\n')) src p)
      else if c = '"' then
        match scanStringTail src (src.length + 1) (p + 1) with
        | some e => some (.good (.stringLit (String.mk (sliceChars src (p + 1) (e - 1)))), p, e)
        | none => some (.errItem, p, p + 1)
      else if isIdentStart c then
        if c = 'b' && src.get? (p + 1) = some squote then
          let h := runEnd isHexDigit src (p + 2)
          if src.get? h = some squote then
            some (.good (.bytesLit (decodeBytePairs (sliceChars src (p + 2) h))), p, h + 1)
          else
            some (.good (classifyWord (sliceChars src p (runEnd isIdentChar src p))), p,
              runEnd isIdentChar src p)
        else
          some (.good (classifyWord (sliceChars src p (runEnd isIdentChar src p))), p,
            runEnd isIdentChar src p)
      else if c.isDigit then
        if c = '0' && src.get? (p + 1) = some 'x' && runEnd isHexDigit src (p + 2) > p + 2 then
          let h := runEnd isHexDigit src (p + 2)
          some (.good (.hexNumber (hexVal (sliceChars src (p + 2) h))), p, h)
        else
          let d := runEnd (fun ch => ch.isDigit) src p
          some (.good (.number (decimalVal (sliceChars src p d))), p, d)
      else if c = '+' then
        if src.get? (p + 1) = some '=' then some (.good .plusAssign, p, p + 2)
        else some (.good .plus, p, p + 1)
      else if c = '-' then
        if src.get? (p + 1) = some '=' then some (.good .minusAssign, p, p + 2)
        else if src.get? (p + 1) = some '>' then some (.good .arrow, p, p + 2)
        else some (.good .minus, p, p + 1)
      else if c = '*' then
        if src.get? (p + 1) = some '*' then some (.good .power, p, p + 2)
        else if src.get? (p + 1) = some '=' then some (.good .multiplyAssign, p, p + 2)
        else some (.good .multiply, p, p + 1)
      else if c = '/' then
        if src.get? (p + 1) = some '=' then some (.good .divideAssign, p, p + 2)
        else some (.good .divide, p, p + 1)
      else if c = '%' then some (.good .modulo, p, p + 1)
      else if c = '=' then
        if src.get? (p + 1) = some '=' then some (.good .equal, p, p + 2)
        else some (.good .assign, p, p + 1)
      else if c = '!' then
        if src.get? (p + 1) = some '=' then some (.good .notEqual, p, p + 2)
        else some (.errItem, p, p + 1)
      else if c = '<' then
        if src.get? (p + 1) = some '=' then some (.good .lessEqual, p, p + 2)
        else some (.good .less, p, p + 1)
      else if c = '>' then
        if src.get? (p + 1) = some '=' then some (.good .greaterEqual, p, p + 2)
        else some (.good .greater, p, p + 1)
      else if c = '(' then some (.good .lparen, p, p + 1)
      else if c = ')' then some (.good .rparen, p, p + 1)
      else if c = '[' then some (.good .lbracket, p, p + 1)
      else if c = ']' then some (.good .rbracket, p, p + 1)
      else if c = lbraceChar then some (.good .lbrace, p, p + 1)
      else if c = rbraceChar then some (.good .rbrace, p, p + 1)
      else if c = ',' then some (.good .comma, p, p + 1)
      else if c = ':' then some (.good .colon, p, p + 1)
      else if c = '.' then some (.good .dot, p, p + 1)
      else some (.errItem, p, p + 1)

def innerNext (src : List Char) (p : Nat) : Option (InnerItem × Nat × Nat) :=
  innerNextAux src (src.length + 1) p

/-! ### The `PyraLexer` wrapper -/

inductive IndentType where
  | spaces
  | tabs
  deriving DecidableEq, Repr

/-- The mutable state of `PyraLexer`: the inner lexer is represented by
the source together with the current position `pos` and the start of the
most recent span `tokStart`; `indent_stack` is stored top-first (Rust's
`last()` is the head, `truncate(1)` keeps the last element). -/
structure LexState where
  src : List Char
  pos : Nat
  tokStart : Nat
  indent_stack : List Nat
  pending_dedents : Nat
  pending_indent : Bool
  pending_token : Option Token
  at_line_start : Bool
  indent_type : Option IndentType
  deriving Repr

def PyraLexer.new (source : List Char) : LexState :=
  { src := source, pos := 0, tokStart := 0, indent_stack := [0],
    pending_dedents := 0, pending_indent := false, pending_token := none,
    at_line_start := true, indent_type := none }

/-- First position of the line containing `i` (backward scan for a
preceding newline byte). -/
def lineStartAux (src : List Char) : Nat → Nat
  | 0 => 0
  | i + 1 => if src.get? i = some '\n' then i + 1 else lineStartAux src i

/-- Forward scan of a line prefix: accumulated indent (space = 1,
tab = 8) plus whether spaces and tabs occurred, stopping at the first
other byte. -/
def indentScan : List Char → Nat × Bool × Bool
  | [] => (0, false, false)
  | c :: rest =>
    if c = ' ' then
      let r := indentScan rest
      (r.1 + 1, true, r.2.2)
    else if c = '\t' then
      let r := indentScan rest
      (r.1 + 8, r.2.1, true)
    else (0, false, false)

/-- Pop every stack level strictly above `indent`, counting the pops. -/
def popLevels : List Nat → Nat → List Nat × Nat
  | [], _ => ([], 0)
  | l :: rest, indent =>
    if l ≤ indent then (l :: rest, 0)
    else
      let r := popLevels rest indent
      (r.1, r.2 + 1)

/-- The stack/pending adjustment at the end of `handle_indentation`. -/
def adjust_levels (st : LexState) (indent : Nat) : Option Token × LexState :=
  let current_level := st.indent_stack.headD 0
  if indent > current_level then
    (none, { st with indent_stack := indent :: st.indent_stack, pending_indent := true })
  else if indent < current_level then
    if st.indent_stack.contains indent then
      let r := popLevels st.indent_stack indent
      (none, { st with indent_stack := r.1, pending_dedents := st.pending_dedents + r.2 })
    else (some .indentationError, st)
  else (none, st)

def handle_indentation (st : LexState) : Option Token × LexState :=
  let current_pos := st.tokStart
  let line_start := lineStartAux st.src current_pos
  let scan := indentScan (sliceChars st.src line_start current_pos)
  let indent := scan.1
  if scan.2.1 && scan.2.2 then (some .mixedIndentationError, st)
  else if indent > 0 then
    let cur := if scan.2.2 then IndentType.tabs else IndentType.spaces
    match st.indent_type with
    | none => adjust_levels { st with indent_type := some cur } indent
    | some prev =>
      if prev = cur then adjust_levels st indent
      else (some .mixedIndentationError, st)
  else adjust_levels st indent

def untermAux : List Char → Bool → Bool
  | [], _ => true
  | c :: rest, escaped =>
    if escaped then untermAux rest false
    else if c = backslash then untermAux rest true
    else if c = '"' then false
    else if c = '\n' then true
    else untermAux rest false

def is_unterminated_string (text : List Char) : Bool :=
  match text with
  | c :: rest => if c = '"' then untermAux rest false else false
  | [] => false

/-- Accumulate digits, dots and letters; the flag records a second dot
or any letter. -/
def cmnAux : List Char → Nat → List Char × Bool
  | [], _ => ([], false)
  | c :: rest, dots =>
    if c.isDigit then
      let r := cmnAux rest dots
      (c :: r.1, r.2)
    else if c = '.' then
      let r := cmnAux rest (dots + 1)
      (c :: r.1, r.2 || decide (dots + 1 > 1))
    else if c.isAlpha then
      let r := cmnAux rest dots
      (c :: r.1, true)
    else ([], false)

def check_malformed_number (text : List Char) : Option String :=
  let r := cmnAux text 0
  if r.2 && !r.1.isEmpty then some (String.mk r.1) else none

/-- Valid prefix of a hex tail up to and including the first offending
character, if any. -/
def cihScan : List Char → Option (List Char)
  | [] => none
  | c :: rest =>
    if isHexDigit c || c = squote || c.isWhitespace then
      match cihScan rest with
      | some tail => some (c :: tail)
      | none => none
    else some [c]

def check_invalid_hex (text : List Char) : Option String :=
  match text with
  | c1 :: c2 :: rest =>
    if c1 = '0' then
      if c2 = 'x' then
        match cihScan rest with
        | some s => some (String.mk ('0' :: 'x' :: s))
        | none => none
      else none
    else none
  | _ => none

def findQuoteIdx : List Char → Option Nat
  | [] => none
  | c :: rest => if c = squote then some 0 else (findQuoteIdx rest).map (· + 1)

def findWsIdx : List Char → Option Nat
  | [] => none
  | c :: rest => if c.isWhitespace then some 0 else (findWsIdx rest).map (· + 1)

def check_invalid_bytes (text : List Char) : Option String :=
  match text with
  | c1 :: c2 :: rest =>
    if c1 = 'b' then
      if c2 = squote then
        match findQuoteIdx rest with
        | some endPos =>
          match (rest.take endPos).find? (fun ch => !(ch == squote) && !(isHexDigit ch)) with
          | some ch => some (String.mk ['b', squote, ch])
          | none => none
        | none => none
      else none
    else none
  | _ => none

def startsWith0x : List Char → Bool
  | c1 :: c2 :: _ => c1 = '0' && c2 = 'x'
  | _ => false

def startsWithBq : List Char → Bool
  | c1 :: c2 :: _ => c1 = 'b' && c2 = squote
  | _ => false

def punctChars : List Char :=
  ['(', ')', '[', ']', lbraceChar, rbraceChar, ':', ',', '.', '+', '-', '*',
   '/', '=', '<', '>', '"', squote, '_']

/-- Classification of an inner error item from the remainder of the
source (the text after the error span). -/
def analyze_error (remaining : List Char) : Token :=
  match remaining with
  | [] => .errorTok
  | first :: _ =>
    if first = '@' ∨ first = '#' ∨ first = '$' ∨ first = backtickChar ∨ first = '~' then
      .invalidChar first
    else
      let matched : Option Token :=
        if first = '"' then
          if is_unterminated_string remaining then some .unterminatedString else none
        else if first.isDigit then
          (check_malformed_number remaining).map (fun m => Token.malformedNumber m)
        else if startsWith0x remaining then
          let hexEnd := (findWsIdx remaining).getD remaining.length
          (check_invalid_hex (remaining.take hexEnd)).map (fun s => Token.invalidHexDigit s)
        else if startsWithBq remaining then
          match findQuoteIdx (remaining.drop 2) with
          | some endQuote =>
            (check_invalid_bytes (remaining.take (endQuote + 3))).map
              (fun s => Token.invalidBytesLiteral s)
          | none => none
        else none
      match matched with
      | some t => t
      | none =>
        if !first.isAlphanum && !(punctChars.contains first) then .invalidChar first
        else .errorTok

def next_token (st : LexState) : Option Token × LexState :=
  if st.pending_indent then
    (some .indent, { st with pending_indent := false })
  else if st.pending_dedents > 0 then
    (some .dedent, { st with pending_dedents := st.pending_dedents - 1 })
  else
    match st.pending_token with
    | some tok => (some tok, { st with pending_token := none })
    | none =>
      match innerNext st.src st.pos with
      | some (.good token, s, e) =>
        let st1 : LexState := { st with pos := e, tokStart := s }
        match token with
        | .newline => (some .newline, { st1 with at_line_start := true })
        | .whitespaceOnlyLine => (some .newline, { st1 with at_line_start := true })
        | _ =>
          if st1.at_line_start then
            match handle_indentation st1 with
            | (some error_token, st2) => (some error_token, st2)
            | (none, st2) =>
              let st3 : LexState := { st2 with at_line_start := false }
              if st3.pending_indent then
                let st4 : LexState :=
                  { st3 with pending_indent := false, pending_token := some token }
                (some .indent, st4)
              else if st3.pending_dedents > 0 then
                let st4 : LexState :=
                  { st3 with pending_dedents := st3.pending_dedents - 1, pending_token := some token }
                (some .dedent, st4)
              else (some token, st3)
          else (some token, st1)
      | some (.errItem, s, e) =>
        let st1 : LexState := { st with pos := e, tokStart := s }
        (some (analyze_error (st1.src.drop st1.pos)), st1)
      | none =>
        let depth := st.indent_stack.length - 1
        if depth = 0 then (none, st)
        else
          let st1 : LexState :=
            { st with indent_stack := st.indent_stack.drop (st.indent_stack.length - 1), pending_dedents := depth - 1 }
          (some .dedent, st1)

/-- The full token stream: iterate `next_token` until it yields `none`. -/
def tokensFromAux : Nat → LexState → List Token
  | 0, _ => []
  | fuel + 1, st =>
    match next_token st with
    | (some t, st') => t :: tokensFromAux fuel st'
    | (none, _) => []

def pyraTokens (source : List Char) : List Token :=
  tokensFromAux (4 * source.length + 4) (PyraLexer.new source)

/-! ### EOF behaviour of the wrapper -/

theorem tokensFromAux_pending_dedents (k : Nat) :
    ∀ (fuel : Nat) (st : LexState), st.pending_indent = false →
      st.pending_token = none → st.pending_dedents = k →
      innerNext st.src st.pos = none → st.indent_stack.length = 1 →
      k + 1 ≤ fuel →
      tokensFromAux fuel st = List.replicate k Token.dedent := by
  induction k with
  | zero =>
    intro fuel st h1 h2 h3 h4 h5 h6
    obtain ⟨f, rfl⟩ : ∃ f, fuel = f + 1 := ⟨fuel - 1, by omega⟩
    have hnt : next_token st = (none, st) := by
      simp [next_token, h1, h2, h3, h4, h5]
    simp [tokensFromAux, hnt]
  | succ k ih =>
    intro fuel st h1 h2 h3 h4 h5 h6
    obtain ⟨f, rfl⟩ : ∃ f, fuel = f + 1 := ⟨fuel - 1, by omega⟩
    have hnt : next_token st =
        (some .dedent, { st with pending_dedents := st.pending_dedents - 1 }) := by
      simp [next_token, h1, h3]
    simp only [tokensFromAux, hnt]
    rw [ih f { st with pending_dedents := st.pending_dedents - 1 } h1 h2
      (by simp [h3]) h4 h5 (by omega)]
    rfl

theorem tokensFromAux_eof (fuel : Nat) (st : LexState)
    (h1 : st.pending_indent = false) (h2 : st.pending_token = none)
    (h3 : st.pending_dedents = 0) (h4 : innerNext st.src st.pos = none)
    (h6 : st.indent_stack.length ≤ fuel) :
    tokensFromAux fuel st = List.replicate (st.indent_stack.length - 1) Token.dedent := by
  match hd : st.indent_stack.length with
  | 0 =>
    match fuel with
    | 0 => rfl
    | f + 1 =>
      have hnt : next_token st = (none, st) := by
        simp [next_token, h1, h2, h3, h4, hd]
      simp [tokensFromAux, hnt]
  | 1 =>
    match fuel with
    | 0 => rfl
    | f + 1 =>
      have hnt : next_token st = (none, st) := by
        simp [next_token, h1, h2, h3, h4, hd]
      simp [tokensFromAux, hnt]
  | d + 2 =>
    obtain ⟨f, rfl⟩ : ∃ f, fuel = f + 1 := ⟨fuel - 1, by omega⟩
    have hnt : next_token st =
        (some .dedent,
          { st with indent_stack := st.indent_stack.drop (st.indent_stack.length - 1),
                    pending_dedents := st.indent_stack.length - 1 - 1 }) := by
      simp [next_token, h1, h2, h3, h4, hd]
    simp only [tokensFromAux, hnt]
    rw [tokensFromAux_pending_dedents d f
      { st with indent_stack := st.indent_stack.drop (st.indent_stack.length - 1),
                pending_dedents := st.indent_stack.length - 1 - 1 }
      h1 h2 (by simp [hd]) h4 (by simp [List.length_drop, hd]) (by omega)]
    rfl

/-! ### Symbolic evaluation of the inner lexer -/

theorem get?_eq_head?_drop (src : List Char) : ∀ p, src.get? p = (src.drop p).head? := by
  induction src with
  | nil => intro p; cases p <;> rfl
  | cons c t ih =>
    intro p
    cases p with
    | zero => rfl
    | succ p => exact ih p

theorem drop_succ_cons (src : List Char) : ∀ p, src.drop (p + 1) = (src.drop p).tail := by
  induction src with
  | nil => intro p; simp
  | cons c t ih =>
    intro p
    cases p with
    | zero => rfl
    | succ p => exact ih p

theorem get?_of_drop_cons (src : List Char) (p : Nat) (c : Char) (rest : List Char)
    (h : src.drop p = c :: rest) : src.get? p = some c := by
  rw [get?_eq_head?_drop, h]; rfl

theorem drop_of_drop_cons (src : List Char) (p : Nat) (c : Char) (rest : List Char)
    (h : src.drop p = c :: rest) : src.drop (p + 1) = rest := by
  rw [drop_succ_cons, h]; rfl

theorem runLen_neg (pred : Char → Bool) (c : Char) (rest : List Char) (h : pred c = false) :
    runLen pred (c :: rest) = 0 := by
  simp [runLen, h]

theorem runLen_all_append (pred : Char → Bool) (xs ys : List Char) (h : xs.all pred = true) :
    runLen pred (xs ++ ys) = xs.length + runLen pred ys := by
  induction xs with
  | nil => simp
  | cons c t ih =>
    simp only [List.all_cons, Bool.and_eq_true] at h
    have e : runLen pred (c :: (t ++ ys)) = runLen pred (t ++ ys) + 1 := by
      simp [runLen, h.1]
    rw [List.cons_append, e, ih h.2, List.length_cons]
    omega

theorem runEnd_of_drop (pred : Char → Bool) (src rest : List Char) (p : Nat)
    (h : src.drop p = rest) : runEnd pred src p = p + runLen pred rest := by
  rw [runEnd, h]

theorem sliceChars_of_drop (src rest : List Char) (p e : Nat) (h : src.drop p = rest) :
    sliceChars src p e = rest.take (e - p) := by
  rw [sliceChars, h]

theorem identStart_facts (c : Char) (h : isIdentStart c = true) :
    ¬c = '\n' ∧ isWsf c = false ∧ ¬c = '#' ∧ ¬c = '"' := by
  simp only [isIdentStart, Bool.or_eq_true, decide_eq_true_eq] at h
  rcases h with h | h
  · refine ⟨?_, ?_, ?_, ?_⟩
    · intro he; rw [he] at h; exact absurd h (by decide)
    · by_contra hw
      rw [Bool.not_eq_false] at hw
      have hno : ¬isWsf c = true := by
        simp only [isWsf, Bool.or_eq_true, decide_eq_true_eq]
        rintro ((rfl | rfl) | rfl) <;> exact absurd h (by decide)
      exact hno hw
    · intro he; rw [he] at h; exact absurd h (by decide)
    · intro he; rw [he] at h; exact absurd h (by decide)
  · rw [h]; refine ⟨by decide, by decide, by decide, by decide⟩

theorem identStart_isIdentChar (c : Char) (h : isIdentStart c = true) : isIdentChar c = true := by
  simp only [isIdentStart, Bool.or_eq_true, decide_eq_true_eq] at h
  rcases h with h | h
  · simp [isIdentChar, h]
  · rw [h]; decide

theorem innerNextAux_ident (src : List Char) (fuel p : Nat) (c : Char) (rest : List Char)
    (hdrop : src.drop p = c :: rest) (hstart : isIdentStart c = true)
    (hnb : ¬src.get? (p + 1) = some squote) :
    innerNextAux src (fuel + 1) p =
      some (.good (classifyWord (sliceChars src p (runEnd isIdentChar src p))), p,
        runEnd isIdentChar src p) := by
  have hget : src.get? p = some c := get?_of_drop_cons src p c rest hdrop
  obtain ⟨f1, f2, f3, f4⟩ := identStart_facts c hstart
  rw [List.get?_eq_getElem?] at hget
  rw [List.get?_eq_getElem?] at hnb
  simp [innerNextAux, hget, f1, f2, f3, f4, hstart, hnb]

theorem innerNextAux_lparen (src : List Char) (fuel p : Nat) (rest : List Char)
    (h : src.drop p = '(' :: rest) :
    innerNextAux src (fuel + 1) p = some (.good .lparen, p, p + 1) := by
  have hget := get?_of_drop_cons src p _ rest h
  rw [List.get?_eq_getElem?] at hget
  simp +decide [innerNextAux, hget]

theorem innerNextAux_rparen (src : List Char) (fuel p : Nat) (rest : List Char)
    (h : src.drop p = ')' :: rest) :
    innerNextAux src (fuel + 1) p = some (.good .rparen, p, p + 1) := by
  have hget := get?_of_drop_cons src p _ rest h
  rw [List.get?_eq_getElem?] at hget
  simp +decide [innerNextAux, hget]

theorem innerNextAux_colon (src : List Char) (fuel p : Nat) (rest : List Char)
    (h : src.drop p = ':' :: rest) :
    innerNextAux src (fuel + 1) p = some (.good .colon, p, p + 1) := by
  have hget := get?_of_drop_cons src p _ rest h
  rw [List.get?_eq_getElem?] at hget
  simp +decide [innerNextAux, hget]

theorem innerNextAux_nl (src : List Char) (fuel p : Nat) (rest : List Char)
    (h : src.drop p = '\n' :: rest) :
    innerNextAux src (fuel + 1) p = some (.good .newline, p, p + 1) := by
  have hget := get?_of_drop_cons src p _ rest h
  rw [List.get?_eq_getElem?] at hget
  simp +decide [innerNextAux, hget]

theorem innerNextAux_eof (src : List Char) (fuel p : Nat) (h : src.length ≤ p) :
    innerNextAux src (fuel + 1) p = none := by
  have hget : src.get? p = none := List.get?_eq_none.mpr h
  rw [List.get?_eq_getElem?] at hget
  simp +decide [innerNextAux, hget]

theorem isWs_false_of_isWsf_false (c : Char) (h : isWsf c = false) : isWs c = false := by
  by_contra hw
  rw [Bool.not_eq_false] at hw
  have hno : ¬isWs c = true := by
    simp only [isWs, Bool.or_eq_true, decide_eq_true_eq]
    rintro (rfl | rfl) <;> exact absurd h (by decide)
  exact hno hw

theorem innerNextAux_ws_skip (src : List Char) (fuel p k : Nat) (sp : List Char) (c : Char)
    (rest : List Char)
    (hdrop : src.drop p = sp ++ c :: rest)
    (hsp : sp.all (fun x => x = ' ') = true) (hk : sp.length = k) (hkpos : 1 ≤ k)
    (hstart : isIdentStart c = true) :
    innerNextAux src (fuel + 1) p = innerNextAux src fuel (p + k) := by
  obtain ⟨f1, f2, f3, f4⟩ := identStart_facts c hstart
  have hsp' : ∀ x ∈ sp, x = ' ' := by
    rw [List.all_eq_true] at hsp
    intro x hx
    simpa using hsp x hx
  have hspf : sp.all isWsf = true := by
    rw [List.all_eq_true]
    intro x hx
    rw [hsp' x hx]; decide
  have hsps : sp.all isWs = true := by
    rw [List.all_eq_true]
    intro x hx
    rw [hsp' x hx]; decide
  obtain ⟨s0, sp', rfl⟩ : ∃ s0 sp', sp = s0 :: sp' := by
    cases sp with
    | nil => simp at hk; omega
    | cons a b => exact ⟨a, b, rfl⟩
  have hs0 : s0 = ' ' := hsp' s0 (by simp)
  have hget : src.get? p = some ' ' := by
    rw [get?_eq_head?_drop, hdrop, hs0]; rfl
  have hwsc : isWs c = false := isWs_false_of_isWsf_false c f2
  have e_wsf : runEnd isWsf src p = p + k := by
    rw [runEnd_of_drop isWsf src _ p hdrop, runLen_all_append isWsf _ _ hspf,
      runLen_neg isWsf c rest f2, hk]
    omega
  have e_ws : runEnd isWs src p = p + k := by
    rw [runEnd_of_drop isWs src _ p hdrop, runLen_all_append isWs _ _ hsps,
      runLen_neg isWs c rest hwsc, hk]
    omega
  have hdk : src.drop (p + k) = c :: rest := by
    have h2 : (src.drop p).drop k = src.drop (p + k) := List.drop_drop k p src
    rw [← h2, hdrop, ← hk, List.drop_left]
  have hgetk : src.get? (p + k) = some c := get?_of_drop_cons src (p + k) c rest hdk
  rw [List.get?_eq_getElem?] at hget hgetk
  simp +decide [innerNextAux, hget, e_ws, e_wsf, hgetk, f1]

/-! ### A one-statement function source -/

/-- Sources of the shape `def <name>():\n<indent><stmt>\n`. -/
def mkDefSrc (name : List Char) (w : Nat) (stmt : List Char) : List Char :=
  ['d', 'e', 'f', ' '] ++ (name ++ (['(', ')', ':', '\n'] ++
    (List.replicate w ' ' ++ (stmt ++ ['\n']))))

/-- A nonempty run of identifier characters starting like an identifier
(the shape of a word the inner lexer turns into one keyword or
identifier token). -/
def isIdentRun (cs : List Char) : Bool :=
  match cs with
  | [] => false
  | c :: _ => isIdentStart c && cs.all isIdentChar

def isIndentTok : Token → Bool
  | .indent => true
  | _ => false

def isDedentTok : Token → Bool
  | .dedent => true
  | _ => false

theorem mkDefSrc_length (name stmt : List Char) (w : Nat) :
    (mkDefSrc name w stmt).length = 9 + name.length + w + stmt.length := by
  simp [mkDefSrc]
  omega

theorem mkDefSrc_drop_after_name (c0 : Char) (cs stmt : List Char) (w : Nat) :
    (mkDefSrc (c0 :: cs) w stmt).drop (5 + cs.length) =
      ['(', ')', ':', '\n'] ++ (List.replicate w ' ' ++ (stmt ++ ['\n'])) := by
  have h1 : 5 + cs.length = 4 + (c0 :: cs).length := by
    simp only [List.length_cons]
    omega
  rw [h1, ← List.drop_drop]
  rw [show (mkDefSrc (c0 :: cs) w stmt).drop 4 =
      (c0 :: cs) ++ (['(', ')', ':', '\n'] ++ (List.replicate w ' ' ++ (stmt ++ ['\n'])))
    from rfl]
  rw [List.drop_left]

theorem innerNext_mkDefSrc_0 (name stmt : List Char) (w : Nat) :
    innerNext (mkDefSrc name w stmt) 0 = some (.good .def_, 0, 3) := by
  have hdrop : (mkDefSrc name w stmt).drop 0 =
      'd' :: (['e', 'f', ' '] ++ (name ++ (['(', ')', ':', '\n'] ++
        (List.replicate w ' ' ++ (stmt ++ ['\n']))))) := by
    simp [mkDefSrc]
  have hnb : ¬(mkDefSrc name w stmt).get? (0 + 1) = some squote := by
    rw [show (mkDefSrc name w stmt).get? (0 + 1) = some 'e' from rfl]
    decide
  rw [innerNext, innerNextAux_ident _ _ 0 'd' _ hdrop (by decide) hnb]
  have e0 : runEnd isIdentChar (mkDefSrc name w stmt) 0 = 3 := by
    rw [runEnd_of_drop _ _ _ 0 hdrop]
    rw [show runLen isIdentChar ('d' :: (['e', 'f', ' '] ++ (name ++ (['(', ')', ':', '\n'] ++
        (List.replicate w ' ' ++ (stmt ++ ['\n'])))))) = 3 from by
      simp +decide [runLen]]
  rw [e0]
  rfl

theorem innerNext_mkDefSrc_name (c0 : Char) (cs stmt : List Char) (w : Nat)
    (hstart : isIdentStart c0 = true) (hall : (c0 :: cs).all isIdentChar = true) :
    innerNext (mkDefSrc (c0 :: cs) w stmt) 3 =
      some (.good (classifyWord (c0 :: cs)), 4, 5 + cs.length) := by
  have hdrop3 : (mkDefSrc (c0 :: cs) w stmt).drop 3 =
      [' '] ++ (c0 :: (cs ++ (['(', ')', ':', '\n'] ++
        (List.replicate w ' ' ++ (stmt ++ ['\n']))))) := rfl
  rw [innerNext, innerNextAux_ws_skip _ _ 3 1 [' '] c0 _ hdrop3 (by decide) rfl
    (by decide) hstart]
  have hL1 : (mkDefSrc (c0 :: cs) w stmt).length = 9 + cs.length + w + stmt.length + 1 := by
    rw [mkDefSrc_length, List.length_cons]
    omega
  rw [hL1]
  have hdrop4 : (mkDefSrc (c0 :: cs) w stmt).drop (3 + 1) =
      c0 :: (cs ++ (['(', ')', ':', '\n'] ++ (List.replicate w ' ' ++ (stmt ++ ['\n'])))) := rfl
  have hnb : ¬(mkDefSrc (c0 :: cs) w stmt).get? (3 + 1 + 1) = some squote := by
    have hd5 : (mkDefSrc (c0 :: cs) w stmt).drop (3 + 1 + 1) =
        cs ++ (['(', ')', ':', '\n'] ++ (List.replicate w ' ' ++ (stmt ++ ['\n']))) := rfl
    rw [get?_eq_head?_drop, hd5]
    cases cs with
    | nil =>
      intro hcon
      rw [show (([] : List Char) ++ (['(', ')', ':', '\n'] ++
          (List.replicate w ' ' ++ (stmt ++ ['\n'])))).head? = some '(' from rfl] at hcon
      exact absurd hcon (by decide)
    | cons c1 cs' =>
      intro hcon
      rw [show ((c1 :: cs' ++ (['(', ')', ':', '\n'] ++
          (List.replicate w ' ' ++ (stmt ++ ['\n'])))).head? = some c1) from rfl] at hcon
      have hc1 : isIdentChar c1 = true := by
        simp only [List.all_cons, Bool.and_eq_true] at hall
        exact hall.2.1
      have hc1q : c1 = squote := by simpa using hcon
      rw [hc1q] at hc1
      exact absurd hc1 (by decide)
  rw [innerNextAux_ident _ _ (3 + 1) c0 _ hdrop4 hstart hnb]
  have heq : runEnd isIdentChar (mkDefSrc (c0 :: cs) w stmt) (3 + 1) = 5 + cs.length := by
    rw [runEnd_of_drop _ _ _ _ hdrop4]
    rw [show (c0 :: (cs ++ (['(', ')', ':', '\n'] ++
        (List.replicate w ' ' ++ (stmt ++ ['\n']))))) =
        (c0 :: cs) ++ (['(', ')', ':', '\n'] ++
          (List.replicate w ' ' ++ (stmt ++ ['\n']))) from rfl]
    rw [runLen_all_append _ _ _ hall]
    rw [show runLen isIdentChar (['(', ')', ':', '\n'] ++
        (List.replicate w ' ' ++ (stmt ++ ['\n']))) = 0 from runLen_neg _ _ _ (by decide)]
    simp only [List.length_cons]
    omega
  rw [heq]
  have hslice : sliceChars (mkDefSrc (c0 :: cs) w stmt) (3 + 1) (5 + cs.length) = c0 :: cs := by
    rw [sliceChars_of_drop _ _ _ _ hdrop4]
    rw [show 5 + cs.length - (3 + 1) = (c0 :: cs).length from by
      simp only [List.length_cons]; omega]
    rw [show (c0 :: (cs ++ (['(', ')', ':', '\n'] ++
        (List.replicate w ' ' ++ (stmt ++ ['\n']))))) =
        (c0 :: cs) ++ (['(', ')', ':', '\n'] ++
          (List.replicate w ' ' ++ (stmt ++ ['\n']))) from rfl]
    exact List.take_left _ _
  rw [hslice]

theorem drop_replicate_append (n : Nat) (a : Char) (l : List Char) :
    (List.replicate n a ++ l).drop n = l := by
  have h := List.drop_left (List.replicate n a) l
  rwa [List.length_replicate] at h

theorem take_replicate_append (n : Nat) (a : Char) (l : List Char) :
    (List.replicate n a ++ l).take n = List.replicate n a := by
  have h := List.take_left (List.replicate n a) l
  rwa [List.length_replicate] at h

theorem mkDefSrc_drop_line2 (c0 : Char) (cs stmt : List Char) (w : Nat) :
    (mkDefSrc (c0 :: cs) w stmt).drop (9 + cs.length) =
      List.replicate w ' ' ++ (stmt ++ ['\n']) := by
  rw [show 9 + cs.length = 5 + cs.length + 1 + 1 + 1 + 1 from by omega,
    drop_succ_cons, drop_succ_cons, drop_succ_cons, drop_succ_cons,
    mkDefSrc_drop_after_name]
  rfl

theorem mkDefSrc_drop_stmt (c0 : Char) (cs stmt : List Char) (w : Nat) :
    (mkDefSrc (c0 :: cs) w stmt).drop (9 + cs.length + w) = stmt ++ ['\n'] := by
  rw [← List.drop_drop, mkDefSrc_drop_line2]
  exact drop_replicate_append w ' ' _

theorem mkDefSrc_drop_nl2 (c0 d0 : Char) (cs ds : List Char) (w : Nat) :
    (mkDefSrc (c0 :: cs) w (d0 :: ds)).drop (10 + cs.length + w + ds.length) = ['\n'] := by
  rw [show 10 + cs.length + w + ds.length = 9 + cs.length + w + (ds.length + 1) from by omega,
    ← List.drop_drop, mkDefSrc_drop_stmt]
  rw [show ds.length + 1 = (d0 :: ds).length from by simp]
  exact List.drop_left _ _

theorem innerNext_mkDefSrc_lparen (c0 : Char) (cs stmt : List Char) (w : Nat) :
    innerNext (mkDefSrc (c0 :: cs) w stmt) (5 + cs.length) =
      some (.good .lparen, 5 + cs.length, 6 + cs.length) := by
  have hdrop : (mkDefSrc (c0 :: cs) w stmt).drop (5 + cs.length) =
      '(' :: ([')', ':', '\n'] ++ (List.replicate w ' ' ++ (stmt ++ ['\n']))) := by
    rw [mkDefSrc_drop_after_name]
    rfl
  rw [innerNext, innerNextAux_lparen _ _ _ _ hdrop,
    show 5 + cs.length + 1 = 6 + cs.length from by omega]

theorem innerNext_mkDefSrc_rparen (c0 : Char) (cs stmt : List Char) (w : Nat) :
    innerNext (mkDefSrc (c0 :: cs) w stmt) (6 + cs.length) =
      some (.good .rparen, 6 + cs.length, 7 + cs.length) := by
  have hdrop : (mkDefSrc (c0 :: cs) w stmt).drop (6 + cs.length) =
      ')' :: ([':', '\n'] ++ (List.replicate w ' ' ++ (stmt ++ ['\n']))) := by
    rw [show 6 + cs.length = 5 + cs.length + 1 from by omega,
      drop_succ_cons, mkDefSrc_drop_after_name]
    rfl
  rw [innerNext, innerNextAux_rparen _ _ _ _ hdrop,
    show 6 + cs.length + 1 = 7 + cs.length from by omega]

theorem innerNext_mkDefSrc_colon (c0 : Char) (cs stmt : List Char) (w : Nat) :
    innerNext (mkDefSrc (c0 :: cs) w stmt) (7 + cs.length) =
      some (.good .colon, 7 + cs.length, 8 + cs.length) := by
  have hdrop : (mkDefSrc (c0 :: cs) w stmt).drop (7 + cs.length) =
      ':' :: (['\n'] ++ (List.replicate w ' ' ++ (stmt ++ ['\n']))) := by
    rw [show 7 + cs.length = 5 + cs.length + 1 + 1 from by omega,
      drop_succ_cons, drop_succ_cons, mkDefSrc_drop_after_name]
    rfl
  rw [innerNext, innerNextAux_colon _ _ _ _ hdrop,
    show 7 + cs.length + 1 = 8 + cs.length from by omega]

theorem innerNext_mkDefSrc_nl1 (c0 : Char) (cs stmt : List Char) (w : Nat) :
    innerNext (mkDefSrc (c0 :: cs) w stmt) (8 + cs.length) =
      some (.good .newline, 8 + cs.length, 9 + cs.length) := by
  have hdrop : (mkDefSrc (c0 :: cs) w stmt).drop (8 + cs.length) =
      '\n' :: (List.replicate w ' ' ++ (stmt ++ ['\n'])) := by
    rw [show 8 + cs.length = 5 + cs.length + 1 + 1 + 1 from by omega,
      drop_succ_cons, drop_succ_cons, drop_succ_cons, mkDefSrc_drop_after_name]
    rfl
  rw [innerNext, innerNextAux_nl _ _ _ _ hdrop,
    show 8 + cs.length + 1 = 9 + cs.length from by omega]

theorem get?_add (src : List Char) (p i : Nat) : src.get? (p + i) = (src.drop p).get? i := by
  rw [get?_eq_head?_drop, get?_eq_head?_drop (src.drop p), List.drop_drop]

theorem get?_replicate (a : Char) : ∀ w i, i < w → (List.replicate w a).get? i = some a := by
  intro w
  induction w with
  | zero => intro i h; omega
  | succ w ih =>
    intro i h
    cases i with
    | zero => rfl
    | succ i => exact ih i (by omega)

theorem innerNext_mkDefSrc_stmt (c0 d0 : Char) (cs ds : List Char) (w : Nat)
    (hstart : isIdentStart d0 = true) (hall : (d0 :: ds).all isIdentChar = true)
    (hw : 1 ≤ w) :
    innerNext (mkDefSrc (c0 :: cs) w (d0 :: ds)) (9 + cs.length) =
      some (.good (classifyWord (d0 :: ds)), 9 + cs.length + w,
        10 + cs.length + w + ds.length) := by
  have hdl2 : (mkDefSrc (c0 :: cs) w (d0 :: ds)).drop (9 + cs.length) =
      List.replicate w ' ' ++ (d0 :: (ds ++ ['\n'])) := by
    rw [mkDefSrc_drop_line2]
    rfl
  have hsp : ((List.replicate w ' ').all fun x => x = ' ') = true := by
    rw [List.all_eq_true]
    intro x hx
    simp [List.eq_of_mem_replicate hx]
  rw [innerNext, innerNextAux_ws_skip _ _ (9 + cs.length) w (List.replicate w ' ') d0 _
    hdl2 hsp (List.length_replicate w ' ') hw hstart]
  have hL1 : (mkDefSrc (c0 :: cs) w (d0 :: ds)).length =
      10 + cs.length + w + ds.length + 1 := by
    rw [mkDefSrc_length, List.length_cons, List.length_cons]
    omega
  rw [hL1]
  have hdstmt : (mkDefSrc (c0 :: cs) w (d0 :: ds)).drop (9 + cs.length + w) =
      d0 :: (ds ++ ['\n']) := by
    rw [mkDefSrc_drop_stmt]
    rfl
  have hnb : ¬(mkDefSrc (c0 :: cs) w (d0 :: ds)).get? (9 + cs.length + w + 1) =
      some squote := by
    have hd2 := drop_of_drop_cons _ _ _ _ hdstmt
    rw [get?_eq_head?_drop, hd2]
    cases ds with
    | nil =>
      intro hcon
      rw [show (([] : List Char) ++ ['\n']).head? = some '\n' from rfl] at hcon
      exact absurd hcon (by decide)
    | cons c1 cs' =>
      intro hcon
      rw [show ((c1 :: cs' ++ ['\n']).head? = some c1) from rfl] at hcon
      have hc1 : isIdentChar c1 = true := by
        simp only [List.all_cons, Bool.and_eq_true] at hall
        exact hall.2.1
      have hc1q : c1 = squote := by simpa using hcon
      rw [hc1q] at hc1
      exact absurd hc1 (by decide)
  rw [innerNextAux_ident _ _ (9 + cs.length + w) d0 _ hdstmt hstart hnb]
  have heq : runEnd isIdentChar (mkDefSrc (c0 :: cs) w (d0 :: ds)) (9 + cs.length + w) =
      10 + cs.length + w + ds.length := by
    rw [runEnd_of_drop _ _ _ _ hdstmt]
    rw [show (d0 :: (ds ++ ['\n'])) = (d0 :: ds) ++ ['\n'] from rfl]
    rw [runLen_all_append _ _ _ hall]
    rw [show runLen isIdentChar ['\n'] = 0 from runLen_neg _ _ _ (by decide)]
    simp only [List.length_cons]
    omega
  rw [heq]
  have hslice : sliceChars (mkDefSrc (c0 :: cs) w (d0 :: ds)) (9 + cs.length + w)
      (10 + cs.length + w + ds.length) = d0 :: ds := by
    rw [sliceChars_of_drop _ _ _ _ hdstmt]
    rw [show 10 + cs.length + w + ds.length - (9 + cs.length + w) = (d0 :: ds).length from by
      simp only [List.length_cons]; omega]
    rw [show (d0 :: (ds ++ ['\n'])) = (d0 :: ds) ++ ['\n'] from rfl]
    exact List.take_left _ _
  rw [hslice]

theorem innerNext_mkDefSrc_nl2 (c0 d0 : Char) (cs ds : List Char) (w : Nat) :
    innerNext (mkDefSrc (c0 :: cs) w (d0 :: ds)) (10 + cs.length + w + ds.length) =
      some (.good .newline, 10 + cs.length + w + ds.length,
        10 + cs.length + w + ds.length + 1) := by
  have hdrop : (mkDefSrc (c0 :: cs) w (d0 :: ds)).drop (10 + cs.length + w + ds.length) =
      '\n' :: [] := mkDefSrc_drop_nl2 c0 d0 cs ds w
  rw [innerNext, innerNextAux_nl _ _ _ _ hdrop]

theorem innerNext_mkDefSrc_eof (c0 d0 : Char) (cs ds : List Char) (w : Nat) :
    innerNext (mkDefSrc (c0 :: cs) w (d0 :: ds)) (10 + cs.length + w + ds.length + 1) =
      none := by
  rw [innerNext]
  refine innerNextAux_eof _ _ _ ?_
  rw [mkDefSrc_length, List.length_cons, List.length_cons]
  omega

theorem lineStartAux_succ_nl (src : List Char) (i : Nat) (h : src.get? i = some '\n') :
    lineStartAux src (i + 1) = i + 1 := by
  rw [List.get?_eq_getElem?] at h
  simp [lineStartAux, h]

theorem lineStartAux_succ_not (src : List Char) (i : Nat) (h : ¬src.get? i = some '\n') :
    lineStartAux src (i + 1) = lineStartAux src i := by
  rw [List.get?_eq_getElem?] at h
  simp [lineStartAux, h]

theorem lineStartAux_skip (src : List Char) (p : Nat) :
    ∀ k, (∀ i, i < k → ¬src.get? (p + i) = some '\n') →
      lineStartAux src (p + k) = lineStartAux src p := by
  intro k
  induction k with
  | zero => intro _; rfl
  | succ k ih =>
    intro h
    rw [show p + (k + 1) = p + k + 1 from by omega,
      lineStartAux_succ_not _ _ (h k (by omega))]
    exact ih (fun i hi => h i (by omega))

theorem indentScan_replicate_space : ∀ w, 1 ≤ w →
    indentScan (List.replicate w ' ') = (w, true, false) := by
  intro w
  induction w with
  | zero => omega
  | succ w ih =>
    intro _
    cases w with
    | zero => rfl
    | succ w' =>
      have e : indentScan (' ' :: List.replicate (w' + 1) ' ') =
          ((indentScan (List.replicate (w' + 1) ' ')).1 + 1, true,
            (indentScan (List.replicate (w' + 1) ' ')).2.2) := by
        simp +decide [indentScan]
      rw [show List.replicate (w' + 1 + 1) ' ' = ' ' :: List.replicate (w' + 1) ' ' from rfl,
        e, ih (by omega)]

theorem handle_indentation_line2 (c0 d0 : Char) (cs ds : List Char) (w : Nat) (hw : 1 ≤ w)
    (P : Nat) :
    handle_indentation
      ⟨mkDefSrc (c0 :: cs) w (d0 :: ds), P, 9 + cs.length + w, [0], 0, false, none,
        true, none⟩ =
      (none,
        ⟨mkDefSrc (c0 :: cs) w (d0 :: ds), P, 9 + cs.length + w, [w, 0], 0, true, none,
          true, some IndentType.spaces⟩) := by
  have hdl2 : (mkDefSrc (c0 :: cs) w (d0 :: ds)).drop (9 + cs.length) =
      List.replicate w ' ' ++ ((d0 :: ds) ++ ['\n']) := mkDefSrc_drop_line2 c0 cs (d0 :: ds) w
  have hsp_not : ∀ i, i < w →
      ¬(mkDefSrc (c0 :: cs) w (d0 :: ds)).get? (9 + cs.length + i) = some '\n' := by
    intro i hi
    have hv : (mkDefSrc (c0 :: cs) w (d0 :: ds)).get? (9 + cs.length + i) = some ' ' := by
      rw [get?_add, hdl2, List.get?_append (by rw [List.length_replicate]; omega),
        get?_replicate ' ' w i hi]
    rw [hv]
    decide
  have hd8 : (mkDefSrc (c0 :: cs) w (d0 :: ds)).drop (8 + cs.length) =
      '\n' :: (List.replicate w ' ' ++ ((d0 :: ds) ++ ['\n'])) := by
    rw [show 8 + cs.length = 5 + cs.length + 1 + 1 + 1 from by omega,
      drop_succ_cons, drop_succ_cons, drop_succ_cons, mkDefSrc_drop_after_name]
    rfl
  have hnl : (mkDefSrc (c0 :: cs) w (d0 :: ds)).get? (8 + cs.length) = some '\n' :=
    get?_of_drop_cons _ _ _ _ hd8
  have h10 : lineStartAux (mkDefSrc (c0 :: cs) w (d0 :: ds)) (9 + cs.length) =
      9 + cs.length := by
    rw [show 9 + cs.length = 8 + cs.length + 1 from by omega]
    exact lineStartAux_succ_nl _ _ hnl
  have hls : lineStartAux (mkDefSrc (c0 :: cs) w (d0 :: ds)) (9 + cs.length + w) =
      9 + cs.length := by
    rw [lineStartAux_skip _ _ w hsp_not, h10]
  have hslice : sliceChars (mkDefSrc (c0 :: cs) w (d0 :: ds)) (9 + cs.length)
      (9 + cs.length + w) = List.replicate w ' ' := by
    rw [sliceChars_of_drop _ _ _ _ hdl2,
      show 9 + cs.length + w - (9 + cs.length) = w from by omega]
    exact take_replicate_append w ' ' _
  have hpos : 0 < w := hw
  simp only [handle_indentation, hls, hslice, indentScan_replicate_space w hw, adjust_levels]
  simp [hpos]

/-- Word tokens are never layout tokens. -/
def plainTok : Token → Bool
  | .newline => false
  | .whitespaceOnlyLine => false
  | .indent => false
  | .dedent => false
  | _ => true

theorem kwLookup_plain (s : String) : plainTok (kwLookup s) = true := by
  unfold kwLookup
  by_cases h0 : s = ("def")
  · rw [if_pos h0]; rfl
  rw [if_neg h0]
  by_cases h1 : s = ("if")
  · rw [if_pos h1]; rfl
  rw [if_neg h1]
  by_cases h2 : s = ("else")
  · rw [if_pos h2]; rfl
  rw [if_neg h2]
  by_cases h3 : s = ("elif")
  · rw [if_pos h3]; rfl
  rw [if_neg h3]
  by_cases h4 : s = ("for")
  · rw [if_pos h4]; rfl
  rw [if_neg h4]
  by_cases h5 : s = ("while")
  · rw [if_pos h5]; rfl
  rw [if_neg h5]
  by_cases h6 : s = ("return")
  · rw [if_pos h6]; rfl
  rw [if_neg h6]
  by_cases h7 : s = ("let")
  · rw [if_pos h7]; rfl
  rw [if_neg h7]
  by_cases h8 : s = ("mut")
  · rw [if_pos h8]; rfl
  rw [if_neg h8]
  by_cases h9 : s = ("const")
  · rw [if_pos h9]; rfl
  rw [if_neg h9]
  by_cases h10 : s = ("struct")
  · rw [if_pos h10]; rfl
  rw [if_neg h10]
  by_cases h11 : s = ("require")
  · rw [if_pos h11]; rfl
  rw [if_neg h11]
  by_cases h12 : s = ("event")
  · rw [if_pos h12]; rfl
  rw [if_neg h12]
  by_cases h13 : s = ("emit")
  · rw [if_pos h13]; rfl
  rw [if_neg h13]
  by_cases h14 : s = ("in")
  · rw [if_pos h14]; rfl
  rw [if_neg h14]
  by_cases h15 : s = ("true")
  · rw [if_pos h15]; rfl
  rw [if_neg h15]
  by_cases h16 : s = ("false")
  · rw [if_pos h16]; rfl
  rw [if_neg h16]
  by_cases h17 : s = ("uint256")
  · rw [if_pos h17]; rfl
  rw [if_neg h17]
  by_cases h18 : s = ("uint8")
  · rw [if_pos h18]; rfl
  rw [if_neg h18]
  by_cases h19 : s = ("int256")
  · rw [if_pos h19]; rfl
  rw [if_neg h19]
  by_cases h20 : s = ("bool")
  · rw [if_pos h20]; rfl
  rw [if_neg h20]
  by_cases h21 : s = ("address")
  · rw [if_pos h21]; rfl
  rw [if_neg h21]
  by_cases h22 : s = ("bytes")
  · rw [if_pos h22]; rfl
  rw [if_neg h22]
  by_cases h23 : s = ("string")
  · rw [if_pos h23]; rfl
  rw [if_neg h23]
  by_cases h24 : s = ("and")
  · rw [if_pos h24]; rfl
  rw [if_neg h24]
  by_cases h25 : s = ("or")
  · rw [if_pos h25]; rfl
  rw [if_neg h25]
  by_cases h26 : s = ("not")
  · rw [if_pos h26]; rfl
  rw [if_neg h26]
  rfl

theorem plainTok_facts (t : Token) (h : plainTok t = true) :
    ¬t = Token.newline ∧ ¬t = Token.whitespaceOnlyLine ∧
    isIndentTok t = false ∧ isDedentTok t = false := by
  cases t <;> simp_all [plainTok, isIndentTok, isDedentTok]

theorem classifyWord_shape (cs : List Char) :
    ¬classifyWord cs = .newline ∧ ¬classifyWord cs = .whitespaceOnlyLine ∧
    isIndentTok (classifyWord cs) = false ∧ isDedentTok (classifyWord cs) = false :=
  plainTok_facts _ (kwLookup_plain _)

theorem tokensFromAux_step (fuel : Nat) (st st' : LexState) (t : Token)
    (h : next_token st = (some t, st')) :
    tokensFromAux (fuel + 1) st = t :: tokensFromAux fuel st' := by
  simp [tokensFromAux, h]

theorem next_token_plain (st : LexState) (t : Token) (s e : Nat)
    (hin : innerNext st.src st.pos = some (.good t, s, e))
    (hpi : st.pending_indent = false) (hpd : st.pending_dedents = 0)
    (hpt : st.pending_token = none) (hals : st.at_line_start = false)
    (hn1 : ¬t = Token.newline) (hn2 : ¬t = Token.whitespaceOnlyLine) :
    next_token st = (some t, { st with pos := e, tokStart := s }) := by
  cases t <;> first
  | exact absurd rfl hn1
  | exact absurd rfl hn2
  | simp [next_token, hpi, hpd, hpt, hin, hals]

theorem next_token_indent_step (t : Token)
    (hn1 : ¬t = Token.newline) (hn2 : ¬t = Token.whitespaceOnlyLine)
    (c0 d0 : Char) (cs ds : List Char) (w : Nat) (hw : 1 ≤ w)
    (hin : innerNext (mkDefSrc (c0 :: cs) w (d0 :: ds)) (9 + cs.length) =
      some (.good t, 9 + cs.length + w, 10 + cs.length + w + ds.length)) :
    next_token
      ⟨mkDefSrc (c0 :: cs) w (d0 :: ds), 9 + cs.length, 8 + cs.length, [0], 0, false,
        none, true, none⟩ =
      (some .indent,
        ⟨mkDefSrc (c0 :: cs) w (d0 :: ds), 10 + cs.length + w + ds.length,
          9 + cs.length + w, [w, 0], 0, false, some t, false, some IndentType.spaces⟩) := by
  cases t <;> first
  | exact absurd rfl hn1
  | exact absurd rfl hn2
  | (simp only [next_token, hin]
     rw [handle_indentation_line2 c0 d0 cs ds w hw]
     rfl)

theorem pyraTokens_mkDefSrc (c0 d0 : Char) (cs ds : List Char) (w : Nat)
    (hs1 : isIdentStart c0 = true) (ha1 : (c0 :: cs).all isIdentChar = true)
    (hs2 : isIdentStart d0 = true) (ha2 : (d0 :: ds).all isIdentChar = true)
    (hw : 1 ≤ w) :
    pyraTokens (mkDefSrc (c0 :: cs) w (d0 :: ds)) =
      [Token.def_, classifyWord (c0 :: cs), Token.lparen, Token.rparen, Token.colon,
       Token.newline, Token.indent, classifyWord (d0 :: ds), Token.newline,
       Token.dedent] := by
  have hL : (mkDefSrc (c0 :: cs) w (d0 :: ds)).length = 11 + cs.length + w + ds.length := by
    rw [mkDefSrc_length, List.length_cons, List.length_cons]
    omega
  have hsh1 := classifyWord_shape (c0 :: cs)
  have hsh2 := classifyWord_shape (d0 :: ds)
  have h1 : next_token
      ⟨mkDefSrc (c0 :: cs) w (d0 :: ds), 0, 0, [0], 0, false, none, true, none⟩ =
      (some Token.def_,
        ⟨mkDefSrc (c0 :: cs) w (d0 :: ds), 3, 0, [0], 0, false, none, false, none⟩) := by
    simp only [next_token, innerNext_mkDefSrc_0]
    rfl
  have h2 : next_token
      ⟨mkDefSrc (c0 :: cs) w (d0 :: ds), 3, 0, [0], 0, false, none, false, none⟩ =
      (some (classifyWord (c0 :: cs)),
        ⟨mkDefSrc (c0 :: cs) w (d0 :: ds), 5 + cs.length, 4, [0], 0, false, none,
          false, none⟩) :=
    next_token_plain _ _ 4 (5 + cs.length)
      (innerNext_mkDefSrc_name c0 cs (d0 :: ds) w hs1 ha1) rfl rfl rfl rfl
      hsh1.1 hsh1.2.1
  have h3 : next_token
      ⟨mkDefSrc (c0 :: cs) w (d0 :: ds), 5 + cs.length, 4, [0], 0, false, none,
        false, none⟩ =
      (some Token.lparen,
        ⟨mkDefSrc (c0 :: cs) w (d0 :: ds), 6 + cs.length, 5 + cs.length, [0], 0, false,
          none, false, none⟩) :=
    next_token_plain _ _ (5 + cs.length) (6 + cs.length)
      (innerNext_mkDefSrc_lparen c0 cs (d0 :: ds) w) rfl rfl rfl rfl
      (fun h => Token.noConfusion h) (fun h => Token.noConfusion h)
  have h4 : next_token
      ⟨mkDefSrc (c0 :: cs) w (d0 :: ds), 6 + cs.length, 5 + cs.length, [0], 0, false,
        none, false, none⟩ =
      (some Token.rparen,
        ⟨mkDefSrc (c0 :: cs) w (d0 :: ds), 7 + cs.length, 6 + cs.length, [0], 0, false,
          none, false, none⟩) :=
    next_token_plain _ _ (6 + cs.length) (7 + cs.length)
      (innerNext_mkDefSrc_rparen c0 cs (d0 :: ds) w) rfl rfl rfl rfl
      (fun h => Token.noConfusion h) (fun h => Token.noConfusion h)
  have h5 : next_token
      ⟨mkDefSrc (c0 :: cs) w (d0 :: ds), 7 + cs.length, 6 + cs.length, [0], 0, false,
        none, false, none⟩ =
      (some Token.colon,
        ⟨mkDefSrc (c0 :: cs) w (d0 :: ds), 8 + cs.length, 7 + cs.length, [0], 0, false,
          none, false, none⟩) :=
    next_token_plain _ _ (7 + cs.length) (8 + cs.length)
      (innerNext_mkDefSrc_colon c0 cs (d0 :: ds) w) rfl rfl rfl rfl
      (fun h => Token.noConfusion h) (fun h => Token.noConfusion h)
  have h6 : next_token
      ⟨mkDefSrc (c0 :: cs) w (d0 :: ds), 8 + cs.length, 7 + cs.length, [0], 0, false,
        none, false, none⟩ =
      (some Token.newline,
        ⟨mkDefSrc (c0 :: cs) w (d0 :: ds), 9 + cs.length, 8 + cs.length, [0], 0, false,
          none, true, none⟩) := by
    simp only [next_token, innerNext_mkDefSrc_nl1]
    rfl
  have h7 : next_token
      ⟨mkDefSrc (c0 :: cs) w (d0 :: ds), 9 + cs.length, 8 + cs.length, [0], 0, false,
        none, true, none⟩ =
      (some Token.indent,
        ⟨mkDefSrc (c0 :: cs) w (d0 :: ds), 10 + cs.length + w + ds.length,
          9 + cs.length + w, [w, 0], 0, false, some (classifyWord (d0 :: ds)), false,
          some IndentType.spaces⟩) :=
    next_token_indent_step (classifyWord (d0 :: ds)) hsh2.1 hsh2.2.1 c0 d0 cs ds w hw
      (innerNext_mkDefSrc_stmt c0 d0 cs ds w hs2 ha2 hw)
  have h8 : next_token
      ⟨mkDefSrc (c0 :: cs) w (d0 :: ds), 10 + cs.length + w + ds.length,
        9 + cs.length + w, [w, 0], 0, false, some (classifyWord (d0 :: ds)), false,
        some IndentType.spaces⟩ =
      (some (classifyWord (d0 :: ds)),
        ⟨mkDefSrc (c0 :: cs) w (d0 :: ds), 10 + cs.length + w + ds.length,
          9 + cs.length + w, [w, 0], 0, false, none, false, some IndentType.spaces⟩) := rfl
  have h9 : next_token
      ⟨mkDefSrc (c0 :: cs) w (d0 :: ds), 10 + cs.length + w + ds.length,
        9 + cs.length + w, [w, 0], 0, false, none, false, some IndentType.spaces⟩ =
      (some Token.newline,
        ⟨mkDefSrc (c0 :: cs) w (d0 :: ds), 10 + cs.length + w + ds.length + 1,
          10 + cs.length + w + ds.length, [w, 0], 0, false, none, true,
          some IndentType.spaces⟩) := by
    simp only [next_token, innerNext_mkDefSrc_nl2]
    rfl
  have h10 : next_token
      ⟨mkDefSrc (c0 :: cs) w (d0 :: ds), 10 + cs.length + w + ds.length + 1,
        10 + cs.length + w + ds.length, [w, 0], 0, false, none, true,
        some IndentType.spaces⟩ =
      (some Token.dedent,
        ⟨mkDefSrc (c0 :: cs) w (d0 :: ds), 10 + cs.length + w + ds.length + 1,
          10 + cs.length + w + ds.length, [0], 0, false, none, true,
          some IndentType.spaces⟩) := by
    simp only [next_token, innerNext_mkDefSrc_eof]
    rfl
  have heof : ∀ f : Nat, 1 ≤ f → tokensFromAux f
      ⟨mkDefSrc (c0 :: cs) w (d0 :: ds), 10 + cs.length + w + ds.length + 1,
        10 + cs.length + w + ds.length, [0], 0, false, none, true,
        some IndentType.spaces⟩ = [] := by
    intro f hf
    have h := tokensFromAux_eof f
      ⟨mkDefSrc (c0 :: cs) w (d0 :: ds), 10 + cs.length + w + ds.length + 1,
        10 + cs.length + w + ds.length, [0], 0, false, none, true,
        some IndentType.spaces⟩ rfl rfl rfl
      (innerNext_mkDefSrc_eof c0 d0 cs ds w) (by simpa using hf)
    simpa using h
  rw [pyraTokens,
    show PyraLexer.new (mkDefSrc (c0 :: cs) w (d0 :: ds)) =
      ⟨mkDefSrc (c0 :: cs) w (d0 :: ds), 0, 0, [0], 0, false, none, true, none⟩ from rfl]
  obtain ⟨f, hf, hf1⟩ : ∃ f,
      4 * (mkDefSrc (c0 :: cs) w (d0 :: ds)).length + 4 = f + 10 ∧ 1 ≤ f :=
    ⟨4 * (mkDefSrc (c0 :: cs) w (d0 :: ds)).length - 6, by omega, by omega⟩
  rw [hf]
  rw [show f + 10 = f + 9 + 1 from rfl, tokensFromAux_step _ _ _ _ h1]
  rw [show f + 9 = f + 8 + 1 from rfl, tokensFromAux_step _ _ _ _ h2]
  rw [show f + 8 = f + 7 + 1 from rfl, tokensFromAux_step _ _ _ _ h3]
  rw [show f + 7 = f + 6 + 1 from rfl, tokensFromAux_step _ _ _ _ h4]
  rw [show f + 6 = f + 5 + 1 from rfl, tokensFromAux_step _ _ _ _ h5]
  rw [show f + 5 = f + 4 + 1 from rfl, tokensFromAux_step _ _ _ _ h6]
  rw [show f + 4 = f + 3 + 1 from rfl, tokensFromAux_step _ _ _ _ h7]
  rw [show f + 3 = f + 2 + 1 from rfl, tokensFromAux_step _ _ _ _ h8]
  rw [show f + 2 = f + 1 + 1 from rfl, tokensFromAux_step _ _ _ _ h9]
  rw [tokensFromAux_step _ _ _ _ h10]
  rw [heof f hf1]

/-- C10: confirmed. (a) For every source `def <name>():\n<spaces><stmt>\n`
(identifier-shaped `name` and `stmt`, any indent width `w ≥ 1`) the
wrapper's token stream is exactly the ten tokens
`def name ( ) : newline indent stmt newline dedent` — one `Indent`
right before the statement and one `Dedent` at end of input; and
(b) in general, once the inner lexer is exhausted with no pending
tokens, the wrapper emits exactly one `Dedent` per stack level above
zero and nothing else (no trailing `Newline`). -/
theorem c10_indent_dedent_layout :
    (∀ (c0 d0 : Char) (cs ds : List Char) (w : Nat),
      isIdentRun (c0 :: cs) = true → isIdentRun (d0 :: ds) = true → 1 ≤ w →
      pyraTokens (mkDefSrc (c0 :: cs) w (d0 :: ds)) =
        [Token.def_, classifyWord (c0 :: cs), Token.lparen, Token.rparen, Token.colon,
         Token.newline, Token.indent, classifyWord (d0 :: ds), Token.newline,
         Token.dedent] ∧
      (pyraTokens (mkDefSrc (c0 :: cs) w (d0 :: ds))).countP isIndentTok = 1 ∧
      (pyraTokens (mkDefSrc (c0 :: cs) w (d0 :: ds))).countP isDedentTok = 1) ∧
    (∀ (st : LexState) (fuel : Nat),
      innerNext st.src st.pos = none → st.pending_indent = false →
      st.pending_dedents = 0 → st.pending_token = none →
      st.indent_stack.length ≤ fuel →
      tokensFromAux fuel st =
        List.replicate (st.indent_stack.length - 1) Token.dedent) := by
  constructor
  · intro c0 d0 cs ds w h1 h2 hw
    simp only [isIdentRun, Bool.and_eq_true] at h1 h2
    have hstream := pyraTokens_mkDefSrc c0 d0 cs ds w h1.1 h1.2 h2.1 h2.2 hw
    refine ⟨hstream, ?_, ?_⟩
    · rw [hstream]
      simp only [List.countP_cons, List.countP_nil]
      rw [(classifyWord_shape (c0 :: cs)).2.2.1, (classifyWord_shape (d0 :: ds)).2.2.1]
      decide
    · rw [hstream]
      simp only [List.countP_cons, List.countP_nil]
      rw [(classifyWord_shape (c0 :: cs)).2.2.2, (classifyWord_shape (d0 :: ds)).2.2.2]
      decide
  · intro st fuel h1 h2 h3 h4 h5
    exact tokensFromAux_eof fuel st h2 h4 h3 h1 h5

/-- Witness for C10 at the source `def t():\n    x\n` and at an
exhausted lexer state with two open indent levels. -/
theorem c10_indent_dedent_layout_witness :
    (isIdentRun ['t'] = true ∧ isIdentRun ['x'] = true ∧ 1 ≤ 4 ∧
      pyraTokens (mkDefSrc ['t'] 4 ['x']) =
        [Token.def_, classifyWord ['t'], Token.lparen, Token.rparen, Token.colon,
         Token.newline, Token.indent, classifyWord ['x'], Token.newline,
         Token.dedent]) ∧
    tokensFromAux 3 ⟨['a'], 1, 0, [4, 2, 0], 0, false, none, true, none⟩ =
      List.replicate 2 Token.dedent :=
  ⟨⟨by decide, by decide, by decide,
    (c10_indent_dedent_layout.1 't' 'x' [] [] 4 (by decide) (by decide) (by decide)).1⟩,
    by
      have h := c10_indent_dedent_layout.2
        ⟨['a'], 1, 0, [4, 2, 0], 0, false, none, true, none⟩ 3 rfl rfl rfl rfl
        (by decide)
      simpa using h⟩

end Pyra
